import Mathlib

/-!
Verification of the serial EEPROM programmer firmware (`src/main.c`).

The development shallowly embeds the firmware's command protocol engine,
EEPROM access layer, shift-register bus driver and serial receive interrupt
handler as executable Lean functions over `Nat` (machine integers are
modelled with explicit `% 2^16` / `% 2^32` reductions where the C code's
`uint16_t` / `unsigned long` arithmetic can overflow).

Side-effecting firmware routines are embedded as trace-producing functions:
a call returns the ordered list of externally observable events (serial
output lines, shift-register traffic, pin changes, mode switches, delays)
the C routine performs.  The traces model the terminating executions of the
firmware: per spec section 7(c) a peer that sends fewer bytes than announced
makes the firmware block forever, and an inclusive end address of 0xffff
makes the `uint16_t` loop counters wrap, so the claims below are settled on
the device's valid address range (0x0000..0x7fff) with a cooperative peer.
-/

/-! ## Constants from main.c -/

/-- Flag bit `_CE` (BIT0): chip enable, active low. -/
def _CE : Nat := 1

/-- Flag bit `_OE` (BIT1): EEPROM output enable, active low. -/
def _OE : Nat := 2

/-- Flag bit `R_W` (BIT2): write enable, write strobes pull it low. -/
def R_W : Nat := 4

/-- `#define SERMODE_WRITE 0` -/
def SERMODE_WRITE : Nat := 0

/-- `#define SERMODE_CMD 1` -/
def SERMODE_CMD : Nat := 1

/-- `#define SERMODE_ECHO 2` -/
def SERMODE_ECHO : Nat := 2

/-- Software data-protection disable sequence `disable_data_protect[7][2]`,
including the terminating `{0x0000, 0x0000}` sentinel row. -/
def disable_data_protect : List (Nat × Nat) :=
  [(0x5555, 0x00aa), (0x2aaa, 0x0055), (0x5555, 0x0080),
   (0x5555, 0x00aa), (0x2aaa, 0x0055), (0x5555, 0x0020),
   (0x0000, 0x0000)]

/-- Software data-protection enable sequence `enable_data_protect[4][2]`,
including the terminating `{0x0000, 0x0000}` sentinel row. -/
def enable_data_protect : List (Nat × Nat) :=
  [(0x5555, 0x00aa), (0x2aaa, 0x0055), (0x5555, 0x00a0),
   (0x0000, 0x0000)]

/-- The entries of a protect sequence that the C loop
`for(i=0; seq[i][0] > 0; i++)` actually executes: the pairs before the
first entry whose address is 0. -/
def effectivePairs (seq : List (Nat × Nat)) : List (Nat × Nat) :=
  seq.takeWhile (fun p => decide (0 < p.1))

/-- The six pairs of the disable sequence that precede the sentinel. -/
def disable_pairs : List (Nat × Nat) :=
  [(0x5555, 0x00aa), (0x2aaa, 0x0055), (0x5555, 0x0080),
   (0x5555, 0x00aa), (0x2aaa, 0x0055), (0x5555, 0x0020)]

/-- The three pairs of the enable sequence that precede the sentinel. -/
def enable_pairs : List (Nat × Nat) :=
  [(0x5555, 0x00aa), (0x2aaa, 0x0055), (0x5555, 0x00a0)]

/-! ## C `strtoul(str, 0, 16)` model

`cmd_read` / `cmd_write` parse their address fields with
`strtoul(&cmd[k], 0, 16)` and assign the result to a `uint16_t`.
The model follows the C library semantics for base 16: skip leading
whitespace, an optional sign, an optional `0x`/`0X` prefix (consumed only
when a hex digit follows), then the longest run of hex digits; the value
is clamped to `ULONG_MAX` (32-bit `unsigned long` on msp430); a leading
`-` negates the value modulo 2^32.  The `uint16_t` assignment truncation
(`% 65536`) is applied at the call sites. -/

/-- Value of a hex digit character, `none` for non-hex-digit characters. -/
def hexVal? (c : Char) : Option Nat :=
  if 48 ≤ c.toNat ∧ c.toNat ≤ 57 then some (c.toNat - 48)
  else if 97 ≤ c.toNat ∧ c.toNat ≤ 102 then some (c.toNat - 87)
  else if 65 ≤ c.toNat ∧ c.toNat ≤ 70 then some (c.toNat - 55)
  else none

/-- C `isspace`: space and the control characters 9..13. -/
def isSpaceC (c : Char) : Bool :=
  decide (c.toNat = 32 ∨ (9 ≤ c.toNat ∧ c.toNat ≤ 13))

/-- Skip the leading whitespace, as `strtoul` does. -/
def skipSpaces : List Char → List Char
  | [] => []
  | c :: rest => if isSpaceC c then skipSpaces rest else c :: rest

/-- Accumulate the longest leading run of hex digits. -/
def hexRun : List Char → Nat → Nat
  | [], acc => acc
  | c :: rest, acc =>
    match hexVal? c with
    | some v => hexRun rest (acc * 16 + v)
    | none => acc

/-- `strtoul(s, 0, 16)` on msp430 (32-bit `unsigned long`). -/
def strtoul_hex (s : List Char) : Nat :=
  let s1 := skipSpaces s
  let neg := s1.headD ' ' = '-'
  let s2 := if s1.headD ' ' = '-' ∨ s1.headD ' ' = '+' then s1.tail else s1
  let s3 :=
    if s2.headD ' ' = '0' ∧ (s2.tail.headD ' ' = 'x' ∨ s2.tail.headD ' ' = 'X')
        ∧ (hexVal? (s2.tail.tail.headD ' ')).isSome
    then s2.tail.tail else s2
  let m := hexRun s3 0
  let m := if m > 4294967295 then 4294967295 else m
  if neg then (4294967296 - m % 4294967296) % 4294967296 else m

/-! ## Bus driver: `shiftreg_send` at pin level

`shiftreg_send(data_arr, sendmode)` drives one of the three shift-register
chains bit by bit.  The model records every pin transition the routine
performs.  Only the three `SENDMODE_*` constants are ever passed by the
callers (`send_flags`, `send_addr`, `send_data`). -/

/-- The three logical shift-register chains. -/
inductive Chain where
  | flags : Chain
  | addr : Chain
  | data : Chain
deriving DecidableEq, Repr

/-- Pin-level events of the bus driver: setting a chain's serial-data line,
and the rising/falling edges of its shift clock and latch clock. -/
inductive PinEv where
  | ser : Chain → Bool → PinEv
  | srclkHi : Chain → PinEv
  | srclkLo : Chain → PinEv
  | rclkHi : Chain → PinEv
  | rclkLo : Chain → PinEv
deriving DecidableEq, Repr

/-- Pin events of the inner `for(bit = 0; bit <= max_bit; bit++)` loop of
`shiftreg_send`, shifting bits 0..max_bit of `byte` LSB first: each
iteration sets the serial line to the bit value (`this_byte & mask`) and
strobes the shift clock. -/
def shift_byte_evs (chain : Chain) (byte : Nat) : Nat → List PinEv
  | 0 => [.ser chain (byte.testBit 0), .srclkHi chain, .srclkLo chain]
  | n + 1 =>
    shift_byte_evs chain byte n
      ++ [.ser chain (byte.testBit (n + 1)), .srclkHi chain, .srclkLo chain]

/-- `shiftreg_send(data_arr, sendmode)` (main.c lines 640..724): per the
`switch`, mode `SENDMODE_FLAG`(1) uses the flags chain with `max_bit = 2`,
mode `SENDMODE_ADDR`(2) the address chain with `count = 2`, and
`SENDMODE_DATA`(3) the data chain; after all bits are shifted the serial
line is reset low and the latch clock is strobed once. -/
def shiftreg_send (data_arr : List Nat) (sendmode : Nat) : List PinEv :=
  let chain := if sendmode = 1 then Chain.flags
               else if sendmode = 2 then Chain.addr else Chain.data
  let count := if sendmode = 2 then 2 else 1
  let max_bit := if sendmode = 1 then 2 else 7
  ((List.range count).flatMap fun idx =>
    shift_byte_evs chain (data_arr.getD idx 0) max_bit)
  ++ [.ser chain false, .rclkHi chain, .rclkLo chain]

/-- `send_flags(flags)`: one byte to the flags chain, `SENDMODE_FLAG`. -/
def send_flags_evs (flags : Nat) : List PinEv := shiftreg_send [flags] 1

/-- `send_addr(addr)`: low byte then high byte to the address chain,
`SENDMODE_ADDR` (main.c lines 625..631). -/
def send_addr_evs (addr : Nat) : List PinEv :=
  shiftreg_send [addr &&& 0x00ff, (addr &&& 0xff00) >>> 8] 2

/-- `send_data(data)`: one byte to the data-out chain, `SENDMODE_DATA`. -/
def send_data_evs (data : Nat) : List PinEv := shiftreg_send [data] 3

/-- Trace the spec's section 4.1 words describe for one `send` call:
`bit_count` bits of `value` LSB first, each bit set on the serial line and
followed by a shift-clock pulse; then the serial line reset to idle low and
a single latch-clock pulse. -/
def lsb_first_trace (chain : Chain) (value : Nat) (nbits : Nat) : List PinEv :=
  ((List.range nbits).flatMap fun i =>
    [.ser chain (value.testBit i), .srclkHi chain, .srclkLo chain])
  ++ [.ser chain false, .rclkHi chain, .rclkLo chain]

/-! ## Command protocol engine: observable event traces

The command routines of main.c interleave serial output (`send_str`,
`sprintf`) with bus traffic (`send_flags` / `send_addr` / `send_data`,
direct `P2OUT` pin updates), serial-mode switches, sleeps
(`pause_for_char`) and busy delays (`__delay_cycles`).  `Ev` records one
such step; a command routine is embedded as the list of steps it performs.
Formatted output lines are abstracted to constructors carrying the
formatted values. -/

/-- One output line (or echoed data item) sent over the serial link. -/
inductive Line where
  | errReadLen : Nat → Line
  | errReadStart : Line
  | errReadEnd : Line
  | errReadOrder : Line
  | errWriteLen : Nat → Line
  | errWriteStart : Line
  | errWriteEnd : Line
  | errWriteOrder : Line
  | startAddr : Nat → Line
  | endAddr : Nat → Line
  | requesting : Nat → Line
  | totalBytes : Nat → Line
  | pagingLine : Bool → Line
  | lockLine : Bool → Line
  | sendBytes : Nat → Nat → Line
  | writingAt : Nat → Nat → Line
  | dataHex : Nat → Line
  | invalidCommand : Line
  | helpText : Line
  | echoSetting : Bool → Line
  | pageWriteSetting : Bool → Line
  | lockSetting : Bool → Line
deriving DecidableEq, Repr

/-- One observable step of a command routine. -/
inductive Ev where
  | out : Line → Ev
  | flags : Nat → Ev
  | addr : Nat → Ev
  | data : Nat → Ev
  | oeDout : Bool → Ev
  | dinClk : Bool → Ev
  | dinShld : Bool → Ev
  | setMode : Nat → Ev
  | pause : Ev
  | delay : Ev
deriving DecidableEq, Repr

/-- The literal field text `"0000"` compared by
`strncmp(&cmd[k], "0000", 4)`. -/
def str0000 : List Char := ['0', '0', '0', '0']

/-- Pin events of the per-address acquisition in `cmd_read`'s loop: strobe
`SH/~LD` with one clock pulse to load the byte (lines 399..402), then the
7 clock pulses that shift out the remaining bits of the sampling loop
(lines 407..416). -/
def din_load_evs : List Ev :=
  [.dinShld false, .dinClk true, .dinClk false, .dinShld true]

/-- `n` rising/falling shift-clock pulses on the data-in chain. -/
def din_pulses : Nat → List Ev
  | 0 => []
  | n + 1 => [.dinClk true, .dinClk false] ++ din_pulses n

/-- One iteration of `cmd_read`'s address loop at address `i`: set the
address, load and shift the byte in, and — only when `echo_mode` is on —
print the byte as a two-hex-digit pair (lines 395..422). -/
def read_addr_evs (echo_mode : Bool) (mem : Nat → Nat) (i : Nat) : List Ev :=
  [.addr i] ++ din_load_evs ++ din_pulses 7
  ++ (if echo_mode then [.out (.dataHex (mem i % 256))] else [])

/-- `cmd_read`'s loop over `count` consecutive addresses starting at `a`. -/
def read_range_evs (echo_mode : Bool) (mem : Nat → Nat) : Nat → Nat → List Ev
  | _, 0 => []
  | a, n + 1 => read_addr_evs echo_mode mem a
      ++ read_range_evs echo_mode mem (a + 1) n

/-- `cmd_read()` (main.c lines 345..430).  `mem` gives the byte the EEPROM
drives for each address (reduced `% 256`: the byte is assembled from 8
sampled bits).  The `uint16_t` address loop is modelled on `Nat`: it is
faithful for the terminating executions, i.e. whenever `end_addr < 0xffff`
(at `end_addr = 0xffff` the C counter wraps and the loop never exits). -/
def cmd_read (cmd : List Char) (echo_mode : Bool) (mem : Nat → Nat) : List Ev :=
  if cmd.length ≠ 18 then [.out (.errReadLen cmd.length)]
  else
    let start_addr := strtoul_hex (cmd.drop 7) % 65536
    let end_addr := strtoul_hex (cmd.drop 14) % 65536
    if start_addr = 0 ∧ (cmd.drop 7).take 4 ≠ str0000 then
      [.out .errReadStart]
    else if end_addr = 0 ∧ (cmd.drop 14).take 4 ≠ str0000 then
      [.out .errReadEnd]
    else if start_addr > end_addr then
      [.out .errReadOrder]
    else
      [.out (.startAddr start_addr), .out (.endAddr end_addr),
       .out (.requesting (end_addr - start_addr + 1)),
       .oeDout true, .flags R_W, .dinClk false, .dinShld true]
      ++ read_range_evs echo_mode mem start_addr (end_addr - start_addr + 1)
      ++ [.flags (R_W + _OE)]

/-- Target size of the next write chunk (main.c lines 502..514): one byte
when paging is off; otherwise up to the next 64-byte page boundary, capped
at the remaining byte count.  The comparison `cur_write_addr + len >
end_write_addr` is `unsigned int` (16-bit) arithmetic, hence the
`% 65536`. -/
def chunkSize (page_write : Bool) (cur endA : Nat) : Nat :=
  match page_write with
  | false => 1
  | true =>
    let len := 64 - cur % 64
    let len := if len = 0 then 64 else len
    if (cur + len) % 65536 > endA then endA - cur + 1 else len

/-- The body of `cmd_write`'s per-byte programming loop (lines 528..539):
for each buffered byte, set address and data and strobe `R_W`; threads the
`eeprom_flags` variable and the `uint16_t` `cur_write_addr`. -/
def write_bytes_evs : Nat → List Nat → Nat → List Ev × Nat × Nat
  | cur, [], f => ([], cur, f)
  | cur, b :: rest, f =>
    let f1 := f &&& 0xfb
    let f2 := f1 ||| 0x04
    let r := write_bytes_evs ((cur + 1) % 65536) rest f2
    ([.addr cur, .data (b &&& 0xff), .flags f1, .flags f2] ++ r.1, r.2)

/-- `cmd_write`'s chunk loop `while(cur_write_addr <= end_write_addr)`
(lines 502..541), run with the cooperative peer of spec section 7(c): each
`pause_for_char` returns after exactly the announced number of bytes, taken
from the front of `input`.  `fuel` bounds the iteration count; the callers
pass the total byte count, which suffices for every terminating execution
in the valid address range.  Returns the events and the final
`eeprom_flags`. -/
def write_loop_evs : Nat → Bool → Nat → Nat → Nat → List Nat → List Ev × Nat
  | 0, _, _, _, f, _ => ([], f)
  | fuel + 1, page_write, cur, endA, f, input =>
    if cur ≤ endA then
      let t := chunkSize page_write cur endA
      let wb := write_bytes_evs cur (input.take t) f
      let r := write_loop_evs fuel page_write wb.2.1 endA wb.2.2 (input.drop t)
      ([.out (.sendBytes t (endA - cur + 1)), .pause,
        .out (.writingAt t cur)] ++ wb.1 ++ [.delay] ++ r.1, r.2)
    else ([], f)

/-- The `eeprom_lock` protect-sequence loop of `cmd_write`
(lines 485..497 and 546..558): for each entry before the sentinel, set
address and data (`data & 0xff` by the `(char)(.. & 0xff)` cast) and strobe
the `R_W` flag; threads `eeprom_flags`. -/
def protect_loop : List (Nat × Nat) → Nat → List Ev × Nat
  | [], f => ([], f)
  | (a, d) :: rest, f =>
    if 0 < a then
      let f1 := f &&& 0xfb
      let f2 := f1 ||| 0x04
      let r := protect_loop rest f2
      ([.addr a, .data (d &&& 0xff), .flags f1, .flags f2] ++ r.1, r.2)
    else ([], f)

/-- `cmd_write()` (main.c lines 433..570) under the cooperative peer
assumption of `write_loop_evs`. -/
def cmd_write (cmd : List Char) (page_write eeprom_lock : Bool)
    (input : List Nat) : List Ev :=
  if cmd.length ≠ 19 then [.out (.errWriteLen cmd.length)]
  else
    let cur_write_addr := strtoul_hex (cmd.drop 8) % 65536
    let end_write_addr := strtoul_hex (cmd.drop 15) % 65536
    if cur_write_addr = 0 ∧ (cmd.drop 8).take 4 ≠ str0000 then
      [.out .errWriteStart]
    else if end_write_addr = 0 ∧ (cmd.drop 15).take 4 ≠ str0000 then
      [.out .errWriteEnd]
    else if cur_write_addr > end_write_addr then
      [.out .errWriteOrder]
    else
      let f0 := R_W + _OE
      let dis := if eeprom_lock then protect_loop disable_data_protect f0
                 else ([], f0)
      let lp := write_loop_evs (end_write_addr - cur_write_addr + 1)
        page_write cur_write_addr end_write_addr dis.2 input
      let en := if eeprom_lock then protect_loop enable_data_protect lp.2
                else ([], lp.2)
      [.out (.startAddr cur_write_addr), .out (.endAddr end_write_addr),
       .out (.totalBytes (end_write_addr - cur_write_addr + 1)),
       .out (.pagingLine page_write), .out (.lockLine eeprom_lock),
       .flags f0, .oeDout false]
      ++ dis.1
      ++ [.setMode SERMODE_WRITE]
      ++ lp.1
      ++ [.setMode SERMODE_CMD]
      ++ en.1
      ++ [.oeDout true, .flags (R_W + _OE)]

/-! ## Settings commands and the main dispatch loop -/

/-- The firmware's global mode flags. -/
structure Globals where
  echo_mode : Bool
  page_write : Bool
  eeprom_lock : Bool
deriving DecidableEq, Repr

/-- `cmd_echo()` (lines 291..306). -/
def cmd_echo (cmd : List Char) (g : Globals) : Globals × List Ev :=
  if cmd = String.toList "echo on" then ({ g with echo_mode := true }, [])
  else if cmd = String.toList "echo off" then
    ({ g with echo_mode := false }, [])
  else (g, [.out (.echoSetting g.echo_mode)])

/-- `cmd_page_write()` (lines 309..324). -/
def cmd_page_write (cmd : List Char) (g : Globals) : Globals × List Ev :=
  if cmd = String.toList "page_write on" then
    ({ g with page_write := true }, [])
  else if cmd = String.toList "page_write off" then
    ({ g with page_write := false }, [])
  else (g, [.out (.pageWriteSetting g.page_write)])

/-- `cmd_eeprom_lock()` (lines 327..342). -/
def cmd_eeprom_lock (cmd : List Char) (g : Globals) : Globals × List Ev :=
  if cmd = String.toList "eeprom_lock on" then
    ({ g with eeprom_lock := true }, [])
  else if cmd = String.toList "eeprom_lock off" then
    ({ g with eeprom_lock := false }, [])
  else (g, [.out (.lockSetting g.eeprom_lock)])

/-- The dispatch chain of `main()` (lines 237..255).  `strncmp(cmd, s, n)`
is `List.take n` comparison (commands are NUL-terminated and shorter
commands mismatch within the first `n` characters either way).  The static
`cmd_help` text is abstracted to the single `helpText` event. -/
def dispatch (cmd : List Char) (g : Globals) (mem : Nat → Nat)
    (input : List Nat) : Globals × List Ev :=
  if cmd.length = 0 then (g, [])
  else if cmd.take 4 = String.toList "echo" then cmd_echo cmd g
  else if cmd.take 4 = String.toList "read" then
    (g, cmd_read cmd g.echo_mode mem)
  else if cmd.take 5 = String.toList "write" then
    (g, cmd_write cmd g.page_write g.eeprom_lock input)
  else if cmd.take 10 = String.toList "page_write" then cmd_page_write cmd g
  else if cmd.take 11 = String.toList "eeprom_lock" then
    cmd_eeprom_lock cmd g
  else if cmd.take 4 = String.toList "help" then (g, [.out .helpText])
  else (g, [.out .invalidCommand])

/-! ## Serial receive interrupt handler `USCI0RX_ISR` -/

/-- The handler's view of the firmware state. -/
structure SerialSt where
  serial_mode : Nat
  cmd : List Char
  write_buf_idx : Nat
  write_buf_target_size : Nat
deriving DecidableEq, Repr

/-- Externally visible effects of one handler invocation. -/
inductive IsrEff where
  | store : Nat → Nat → IsrEff
  | echoOut : Nat → IsrEff
  | crlfOut : IsrEff
  | wake : IsrEff
deriving DecidableEq, Repr

/-- `USCI0RX_ISR` (main.c lines 573..598) on one received byte `rx`.
`store i b` is the unchecked assignment `write_buf[write_buf_idx] =
UCA0RXBUF` — the handler has no bounds check against the 64-byte capacity
of `write_buf`; `wake` is `__bic_SR_register_on_exit(LPM0_bits)`. -/
def USCI0RX_ISR (st : SerialSt) (rx : Nat) (echo_mode : Bool) :
    SerialSt × List IsrEff :=
  if st.serial_mode = SERMODE_WRITE then
    ({ st with write_buf_idx := st.write_buf_idx + 1 },
     [.store st.write_buf_idx rx]
     ++ (if st.write_buf_idx + 1 ≥ st.write_buf_target_size then [.wake]
         else []))
  else if st.serial_mode = SERMODE_ECHO then
    (st, (if echo_mode then [.echoOut rx] else []) ++ [.wake])
  else if st.serial_mode = SERMODE_CMD then
    if rx = 0x0d then
      (st, (if echo_mode then [.crlfOut] else []) ++ [.wake])
    else
      ({ st with cmd := st.cmd ++ [Char.ofNat rx] },
       if echo_mode then [.echoOut rx] else [])
  else (st, [])

/-- Run the handler over a list of received bytes. -/
def isr_run (st : SerialSt) (echo_mode : Bool) :
    List Nat → SerialSt × List IsrEff
  | [] => (st, [])
  | b :: rest =>
    let r1 := USCI0RX_ISR st b echo_mode
    let r2 := isr_run r1.1 echo_mode rest
    (r2.1, r1.2 ++ r2.2)

/-! ## Observers over traces -/

/-- The data values the engine streams back for a read
(the `if(echo_mode) sprintf(buf, "%02x", read_byte)` output). -/
def dataBytes (t : List Ev) : List Nat :=
  t.filterMap fun ev => match ev with
    | .out (.dataHex b) => some b
    | _ => none

/-- All shift-register / pin traffic in a trace: everything the EEPROM bus
sees (flag, address and data chain sends, `OE_DOUT` and data-in pin
changes). -/
def busEvs (t : List Ev) : List Ev :=
  t.filter fun ev => match ev with
    | .flags _ | .addr _ | .data _ | .oeDout _ | .dinClk _ | .dinShld _ =>
      true
    | _ => false

/-- The values sent to the flags chain, in order. -/
def flagsSends (t : List Ev) : List Nat :=
  t.filterMap fun ev => match ev with
    | .flags f => some f
    | _ => none

/-- The values driven onto the data chain, in order. -/
def dataDrives (t : List Ev) : List Nat :=
  t.filterMap fun ev => match ev with
    | .data d => some d
    | _ => none

/-- The `OE_DOUT` pin changes, in order. -/
def oeDoutSets (t : List Ev) : List Bool :=
  t.filterMap fun ev => match ev with
    | .oeDout b => some b
    | _ => none

/-- The chunk sizes announced by `Send <n> bytes, ... remaining...`. -/
def announcedSizes (t : List Ev) : List Nat :=
  t.filterMap fun ev => match ev with
    | .out (.sendBytes n _) => some n
    | _ => none

/-- The `(start address, size)` pairs of the `Writing <n> bytes starting at
0x<addr>` announcements. -/
def chunkHeaders (t : List Ev) : List (Nat × Nat) :=
  t.filterMap fun ev => match ev with
    | .out (.writingAt n a) => some (a, n)
    | _ => none

/-- The serial-mode switches in a trace, in order. -/
def setModes (t : List Ev) : List Nat :=
  t.filterMap fun ev => match ev with
    | .setMode m => some m
    | _ => none

/-- The serial mode after running a trace from mode `m`. -/
def modeAfter (m : Nat) : List Ev → Nat
  | [] => m
  | .setMode k :: rest => modeAfter k rest
  | _ :: rest => modeAfter m rest

/-- Every `pause` (a `pause_for_char` sleep) in the trace happens while
the serial mode is `SERMODE_WRITE`. -/
def pausesOnlyInWrite (m : Nat) : List Ev → Bool
  | [] => true
  | .setMode k :: rest => pausesOnlyInWrite k rest
  | .pause :: rest => (m == SERMODE_WRITE) && pausesOnlyInWrite m rest
  | _ :: rest => pausesOnlyInWrite m rest

/-- Write-enable discipline: every flags value sent with the `R_W` bit
clear is immediately followed by another flags send with `R_W` set —
the write-enable line is never left asserted outside a write strobe. -/
def strobeSafe : List Ev → Bool
  | [] => true
  | .flags f :: rest =>
    if f.testBit 2 then strobeSafe rest
    else
      match rest with
      | .flags g :: _ => g.testBit 2 && strobeSafe rest
      | _ => false
  | _ :: rest => strobeSafe rest

/-- The store indices of the handler effects. -/
def storeIdxs (effs : List IsrEff) : List Nat :=
  effs.filterMap fun e => match e with
    | .store i _ => some i
    | _ => none

/-! ## Well-formed command builders (for quantified theorems) -/

/-- Lower-case hex digit character for a nibble. -/
def hexDigit (n : Nat) : Char :=
  if n < 10 then Char.ofNat (48 + n) else Char.ofNat (87 + n)

/-- Four-digit lower-case hex rendering of a 16-bit value. -/
def hex4 (n : Nat) : List Char :=
  [hexDigit (n / 4096 % 16), hexDigit (n / 256 % 16),
   hexDigit (n / 16 % 16), hexDigit (n % 16)]

/-- The canonical 18-character `read 0x<4hex> 0x<4hex>` line. -/
def mkReadCmd (s e : Nat) : List Char :=
  String.toList "read 0x" ++ hex4 s ++ String.toList " 0x" ++ hex4 e

/-- The canonical 19-character `write 0x<4hex> 0x<4hex>` line. -/
def mkWriteCmd (s e : Nat) : List Char :=
  String.toList "write 0x" ++ hex4 s ++ String.toList " 0x" ++ hex4 e

/-! ## Spec-side definitions (refinement targets, from the spec's words) -/

/-- Chunk-size list as claim C2 words it: the first chunk is
`min(64 - start % 64, total)`, each subsequent chunk `min(64, remaining)`. -/
def specRestChunks : Nat → Nat → List Nat
  | 0, _ => []
  | fuel + 1, rem =>
    if rem = 0 then [] else min 64 rem :: specRestChunks fuel (rem - min 64 rem)

/-- First chunk plus rest, per claim C2's formula. -/
def specChunkSizes : Nat → Nat → Nat → List Nat
  | 0, _, _ => []
  | fuel + 1, start, total =>
    if total = 0 then []
    else
      let c := min (64 - start % 64) total
      c :: specRestChunks fuel (total - c)

/-- One protect-sequence entry as spec section 4.2 words it: an address
drive and a data drive, followed by exactly one write-strobe pulse
(write-enable deasserted, then reasserted). -/
def protectCycleEvs (f : Nat) (p : Nat × Nat) : List Ev :=
  [.addr p.1, .data (p.2 &&& 0xff),
   .flags (f &&& 0xfb), .flags ((f &&& 0xfb) ||| 0x04)]
/-- A read command line the engine must reject (main.c lines 352..372):
wrong length, an address field that parses to 0 without the literal text
`"0000"`, or `start > end`. -/
def readMalformed (cmd : List Char) : Prop :=
  cmd.length ≠ 18
  ∨ (strtoul_hex (cmd.drop 7) % 65536 = 0 ∧ (cmd.drop 7).take 4 ≠ str0000)
  ∨ (strtoul_hex (cmd.drop 14) % 65536 = 0 ∧ (cmd.drop 14).take 4 ≠ str0000)
  ∨ strtoul_hex (cmd.drop 7) % 65536 > strtoul_hex (cmd.drop 14) % 65536

/-- A write command line the engine must reject (main.c lines 437..458). -/
def writeMalformed (cmd : List Char) : Prop :=
  cmd.length ≠ 19
  ∨ (strtoul_hex (cmd.drop 8) % 65536 = 0 ∧ (cmd.drop 8).take 4 ≠ str0000)
  ∨ (strtoul_hex (cmd.drop 15) % 65536 = 0 ∧ (cmd.drop 15).take 4 ≠ str0000)
  ∨ strtoul_hex (cmd.drop 8) % 65536 > strtoul_hex (cmd.drop 15) % 65536

/-- The descriptive error lines of `cmd_read` / `cmd_write`. -/
def isErrLine : Line → Bool
  | .errReadLen _ | .errReadStart | .errReadEnd | .errReadOrder => true
  | .errWriteLen _ | .errWriteStart | .errWriteEnd | .errWriteOrder => true
  | _ => false

theorem hexVal_hexDigit : ∀ n, n < 16 → hexVal? (hexDigit n) = some n := by decide

theorem hexDigit_facts : ∀ n, n < 16 →
    isSpaceC (hexDigit n) = false ∧ hexDigit n ≠ '-' ∧ hexDigit n ≠ '+'
    ∧ hexDigit n ≠ 'x' ∧ hexDigit n ≠ 'X' := by decide

theorem hexRun_stop (rest : List Char) (acc : Nat)
    (h : hexVal? (rest.headD ' ') = none) : hexRun rest acc = acc := by
  cases rest with
  | nil => rfl
  | cons c l => simp only [List.headD_cons] at h; simp [hexRun, h]

theorem hexRun_hex4 (n acc : Nat) (hn : n < 65536) (rest : List Char)
    (h : hexVal? (rest.headD ' ') = none) :
    hexRun (hex4 n ++ rest) acc = acc * 65536 + n := by
  have h3 := hexVal_hexDigit (n / 4096 % 16) (Nat.mod_lt _ (by norm_num))
  have h2 := hexVal_hexDigit (n / 256 % 16) (Nat.mod_lt _ (by norm_num))
  have h1 := hexVal_hexDigit (n / 16 % 16) (Nat.mod_lt _ (by norm_num))
  have h0 := hexVal_hexDigit (n % 16) (Nat.mod_lt _ (by norm_num))
  simp only [hex4, List.cons_append, List.nil_append, hexRun, h3, h2, h1, h0]
  rw [show List.append ([] : List Char) rest = rest from rfl]
  rw [hexRun_stop rest _ h]
  omega

theorem strtoul_hex_of_digit_head (c : Char) (l : List Char)
    (hc : (hexVal? c).isSome)
    (hsp : isSpaceC c = false)
    (hmi : c ≠ '-') (hpl : c ≠ '+')
    (h0 : c = '0' → l.headD ' ' ≠ 'x' ∧ l.headD ' ' ≠ 'X') :
    strtoul_hex (c :: l) =
      if hexRun (c :: l) 0 > 4294967295 then 4294967295
      else hexRun (c :: l) 0 := by
  have hskip : skipSpaces (c :: l) = c :: l := by simp [skipSpaces, hsp]
  have hh : l.headD ' ' = l.head?.getD ' ' := by cases l <;> rfl
  have hh2 : l.tail.headD ' ' = l[1]?.getD ' ' := by
    cases l with
    | nil => rfl
    | cons a t => cases t <;> simp [List.headD]
  have hpref : ¬(c = '0' ∧ (l.head?.getD ' ' = 'x' ∨ l.head?.getD ' ' = 'X')
      ∧ (hexVal? (l[1]?.getD ' ')).isSome = true) := by
    rintro ⟨rfl, hx, _⟩
    rcases h0 rfl with ⟨hx1, hx2⟩
    rw [hh] at hx1 hx2
    rcases hx with h | h
    · exact hx1 h
    · exact hx2 h
  simp only [strtoul_hex, hskip, List.headD_cons, List.tail_cons]
  rw [if_neg (show ¬(c = '-' ∨ c = '+') by simp [hmi, hpl])]
  simp only [List.headD_cons, List.tail_cons, hh, hh2]
  rw [if_neg hpref]
  simp [hmi]

theorem strtoul_hex4_field (n : Nat) (hn : n < 65536) (rest : List Char)
    (h : hexVal? (rest.headD ' ') = none) :
    strtoul_hex (hex4 n ++ rest) = n := by
  have hd3 : n / 4096 % 16 < 16 := Nat.mod_lt _ (by norm_num)
  have hfacts := hexDigit_facts (n / 4096 % 16) hd3
  have hrun : hexRun (hex4 n ++ rest) 0 = n := by
    simpa using hexRun_hex4 n 0 hn rest h
  have hcons : hex4 n ++ rest = hexDigit (n / 4096 % 16) ::
      ((hex4 n).tail ++ rest) := by simp [hex4]
  have hx : hexDigit (n / 4096 % 16) = '0' →
      ((hex4 n).tail ++ rest).headD ' ' ≠ 'x'
        ∧ ((hex4 n).tail ++ rest).headD ' ' ≠ 'X' := by
    intro _
    have hb := hexDigit_facts (n / 256 % 16) (Nat.mod_lt _ (by norm_num))
    simp only [hex4, List.tail_cons, List.cons_append, List.headD_cons]
    exact ⟨hb.2.2.2.1, hb.2.2.2.2⟩
  rw [hcons] at hrun ⊢
  rw [strtoul_hex_of_digit_head _ _
    (by rw [hexVal_hexDigit _ hd3]; rfl) hfacts.1 hfacts.2.1 hfacts.2.2.1 hx,
    hrun]
  rw [if_neg (by omega)]

theorem hex4_zero : hex4 0 = str0000 := by decide

theorem hex4_eq_str0000 (n : Nat) (hn : n < 65536) :
    hex4 n = str0000 ↔ n = 0 := by
  constructor
  · intro h
    have h3 : hexDigit (n / 4096 % 16) = '0' := by
      simpa [hex4, str0000] using congrArg (fun l => l.headD ' ') h
    have h2 : hexDigit (n / 256 % 16) = '0' := by
      simpa [hex4, str0000] using congrArg (fun l => l.tail.headD ' ') h
    have h1 : hexDigit (n / 16 % 16) = '0' := by
      simpa [hex4, str0000] using
        congrArg (fun l => l.tail.tail.headD ' ') h
    have h0 : hexDigit (n % 16) = '0' := by
      simpa [hex4, str0000] using
        congrArg (fun l => l.tail.tail.tail.headD ' ') h
    have hz : ∀ m, m < 16 → hexDigit m = '0' → m = 0 := by decide
    have e3 := hz _ (Nat.mod_lt _ (by norm_num)) h3
    have e2 := hz _ (Nat.mod_lt _ (by norm_num)) h2
    have e1 := hz _ (Nat.mod_lt _ (by norm_num)) h1
    have e0 := hz _ (Nat.mod_lt _ (by norm_num)) h0
    omega
  · rintro rfl
    exact hex4_zero

theorem mkReadCmd_structure (s e : Nat) :
    (mkReadCmd s e).length = 18
    ∧ (mkReadCmd s e).drop 7 = hex4 s ++ (' ' :: '0' :: 'x' :: hex4 e)
    ∧ (mkReadCmd s e).drop 14 = hex4 e := by
  refine ⟨?_, ?_, ?_⟩ <;> simp [mkReadCmd, hex4]

theorem mkWriteCmd_structure (s e : Nat) :
    (mkWriteCmd s e).length = 19
    ∧ (mkWriteCmd s e).drop 8 = hex4 s ++ (' ' :: '0' :: 'x' :: hex4 e)
    ∧ (mkWriteCmd s e).drop 15 = hex4 e := by
  refine ⟨?_, ?_, ?_⟩ <;> simp [mkWriteCmd, hex4]

theorem parse_field1 (n e : Nat) (hn : n < 65536) :
    strtoul_hex (hex4 n ++ (' ' :: '0' :: 'x' :: hex4 e)) = n :=
  strtoul_hex4_field n hn _ (by simp [hexVal?])

theorem parse_field2 (n : Nat) (hn : n < 65536) :
    strtoul_hex (hex4 n) = n := by
  have := strtoul_hex4_field n hn [] (by simp [hexVal?])
  simpa using this

theorem take4_field1 (n : Nat) (rest : List Char) :
    (hex4 n ++ rest).take 4 = hex4 n := by
  simp [hex4]

theorem field_check_passes (n : Nat) (hn : n < 65536) (rest : List Char) :
    ¬(n = 0 ∧ (hex4 n ++ rest).take 4 ≠ str0000) := by
  rintro ⟨rfl, hne⟩
  exact hne (by rw [take4_field1, hex4_zero])
theorem dataBytes_append (t u : List Ev) :
    dataBytes (t ++ u) = dataBytes t ++ dataBytes u := by
  simp [dataBytes]

theorem dataBytes_read_addr (echo_mode : Bool) (mem : Nat → Nat) (a : Nat) :
    dataBytes (read_addr_evs echo_mode mem a) =
      if echo_mode then [mem a % 256] else [] := by
  cases echo_mode <;>
    simp [read_addr_evs, din_load_evs, din_pulses, dataBytes]

theorem dataBytes_read_range (echo_mode : Bool) (mem : Nat → Nat) (a n : Nat) :
    dataBytes (read_range_evs echo_mode mem a n) =
      if echo_mode then (List.range n).map (fun k => mem (a + k) % 256)
      else [] := by
  induction n generalizing a with
  | zero => cases echo_mode <;> simp [read_range_evs, dataBytes]
  | succ n ih =>
    rw [read_range_evs, dataBytes_append, dataBytes_read_addr, ih]
    cases echo_mode with
    | false => simp
    | true =>
      simp only [if_true, List.range_succ_eq_map, List.map_cons, List.map_map]
      simp only [Nat.add_zero, List.cons_append, List.nil_append, if_pos]
      congr 1
      apply List.map_congr_left
      intro k _
      simp only [Function.comp_apply]
      congr 2
      omega

theorem cmd_read_mk (s e : Nat) (echo_mode : Bool) (mem : Nat → Nat)
    (hs : s ≤ e) (he : e < 65536) :
    cmd_read (mkReadCmd s e) echo_mode mem =
      [.out (.startAddr s), .out (.endAddr e),
       .out (.requesting (e - s + 1)),
       .oeDout true, .flags R_W, .dinClk false, .dinShld true]
      ++ read_range_evs echo_mode mem s (e - s + 1)
      ++ [.flags (R_W + _OE)] := by
  have hse : s < 65536 := lt_of_le_of_lt hs he
  obtain ⟨hlen, hd7, hd14⟩ := mkReadCmd_structure s e
  have hp1 : strtoul_hex ((mkReadCmd s e).drop 7) % 65536 = s := by
    rw [hd7, parse_field1 s e hse, Nat.mod_eq_of_lt hse]
  have hp2 : strtoul_hex ((mkReadCmd s e).drop 14) % 65536 = e := by
    rw [hd14, parse_field2 e he, Nat.mod_eq_of_lt he]
  simp only [cmd_read, hlen, hp1, hp2]
  rw [if_neg (by norm_num)]
  rw [if_neg (by rw [hd7]; exact field_check_passes s hse _)]
  rw [if_neg ?hend]
  case hend =>
    have := field_check_passes e he ([] : List Char)
    rw [hd14]
    simpa using this
  rw [if_neg (by omega)]

/-- Claim C1: the original claim is refuted at `read 0x0000 0x0000` with
echo mode off: the code emits the data stream only when `echo_mode` is on
(main.c lines 418..421), so nothing is emitted instead of the claimed
`end - start + 1 = 1` data bytes. -/
theorem read_not_echo_independent :
    (dataBytes (cmd_read (String.toList "read 0x0000 0x0000") false
      (fun _ => 0))).length ≠ 0 - 0 + 1 := by decide

/-- Claim C1 (amended): for valid `start ≤ end` in the device range,
`read 0x<start> 0x<end>` emits the three status lines in either echo mode;
when echo mode is enabled they are followed by exactly `end - start + 1`
data bytes, one per address in ascending order from start to end; when echo
mode is disabled the status lines are still sent but no data bytes are
emitted. -/
theorem read_streams_range (s e : Nat) (mem : Nat → Nat)
    (hs : s ≤ e) (he : e ≤ 0x7fff) :
    (∀ echo_mode : Bool, (cmd_read (mkReadCmd s e) echo_mode mem).take 3 =
      [.out (.startAddr s), .out (.endAddr e),
       .out (.requesting (e - s + 1))])
    ∧ dataBytes (cmd_read (mkReadCmd s e) true mem) =
        (List.range (e - s + 1)).map (fun k => mem (s + k) % 256)
    ∧ (dataBytes (cmd_read (mkReadCmd s e) true mem)).length = e - s + 1
    ∧ dataBytes (cmd_read (mkReadCmd s e) false mem) = [] := by
  have he' : e < 65536 := by omega
  refine ⟨?_, ?_, ?_, ?_⟩
  · intro echo_mode
    rw [cmd_read_mk s e echo_mode mem hs he']; rfl
  · rw [cmd_read_mk s e true mem hs he', dataBytes_append, dataBytes_append,
      dataBytes_read_range]
    simp [dataBytes]
  · rw [cmd_read_mk s e true mem hs he', dataBytes_append, dataBytes_append,
      dataBytes_read_range]
    simp [dataBytes]
  · rw [cmd_read_mk s e false mem hs he', dataBytes_append, dataBytes_append,
      dataBytes_read_range]
    simp [dataBytes]

theorem read_streams_range_witness :
    (cmd_read (mkReadCmd 2 4) false (fun a => a + 3)).take 3 =
      [.out (.startAddr 2), .out (.endAddr 4), .out (.requesting 3)]
    ∧ dataBytes (cmd_read (mkReadCmd 2 4) true (fun a => a + 3)) = [5, 6, 7]
    ∧ dataBytes (cmd_read (mkReadCmd 2 4) false (fun a => a + 3)) = [] := by
  have h := read_streams_range 2 4 (fun a => a + 3) (by norm_num) (by norm_num)
  refine ⟨h.1 false, ?_, h.2.2.2⟩
  rw [h.2.1]
  decide
/-- Claim C5: a malformed read or write command (wrong line length,
address field parsing to 0 with text other than `"0000"`, or
`start > end`) produces exactly one descriptive error line and no bus
traffic of any kind: no flag/address/data chain sends, no `OE_DOUT`
change, no data-in pin activity. -/
theorem malformed_no_bus_activity (cmd : List Char)
    (echo_mode page_write eeprom_lock : Bool) (mem : Nat → Nat)
    (input : List Nat) :
    (readMalformed cmd →
      busEvs (cmd_read cmd echo_mode mem) = []
      ∧ ∃ l, isErrLine l = true ∧ cmd_read cmd echo_mode mem = [.out l])
    ∧ (writeMalformed cmd →
      busEvs (cmd_write cmd page_write eeprom_lock input) = []
      ∧ ∃ l, isErrLine l = true
          ∧ cmd_write cmd page_write eeprom_lock input = [.out l]) := by
  constructor
  · intro h
    by_cases h1 : cmd.length ≠ 18
    · simp only [cmd_read, if_pos h1]
      exact ⟨rfl, .errReadLen cmd.length, rfl, rfl⟩
    by_cases h2 : strtoul_hex (cmd.drop 7) % 65536 = 0
        ∧ (cmd.drop 7).take 4 ≠ str0000
    · simp only [cmd_read, if_neg h1, if_pos h2]
      exact ⟨rfl, .errReadStart, rfl, rfl⟩
    by_cases h3 : strtoul_hex (cmd.drop 14) % 65536 = 0
        ∧ (cmd.drop 14).take 4 ≠ str0000
    · simp only [cmd_read, if_neg h1, if_neg h2, if_pos h3]
      exact ⟨rfl, .errReadEnd, rfl, rfl⟩
    have h4 : strtoul_hex (cmd.drop 7) % 65536 >
        strtoul_hex (cmd.drop 14) % 65536 := by
      rcases h with h | h | h | h
      · exact absurd h h1
      · exact absurd h h2
      · exact absurd h h3
      · exact h
    simp only [cmd_read, if_neg h1, if_neg h2, if_neg h3, if_pos h4]
    exact ⟨rfl, .errReadOrder, rfl, rfl⟩
  · intro h
    by_cases h1 : cmd.length ≠ 19
    · simp only [cmd_write, if_pos h1]
      exact ⟨rfl, .errWriteLen cmd.length, rfl, rfl⟩
    by_cases h2 : strtoul_hex (cmd.drop 8) % 65536 = 0
        ∧ (cmd.drop 8).take 4 ≠ str0000
    · simp only [cmd_write, if_neg h1, if_pos h2]
      exact ⟨rfl, .errWriteStart, rfl, rfl⟩
    by_cases h3 : strtoul_hex (cmd.drop 15) % 65536 = 0
        ∧ (cmd.drop 15).take 4 ≠ str0000
    · simp only [cmd_write, if_neg h1, if_neg h2, if_pos h3]
      exact ⟨rfl, .errWriteEnd, rfl, rfl⟩
    have h4 : strtoul_hex (cmd.drop 8) % 65536 >
        strtoul_hex (cmd.drop 15) % 65536 := by
      rcases h with h | h | h | h
      · exact absurd h h1
      · exact absurd h h2
      · exact absurd h h3
      · exact h
    simp only [cmd_write, if_neg h1, if_neg h2, if_neg h3, if_pos h4]
    exact ⟨rfl, .errWriteOrder, rfl, rfl⟩

theorem malformed_no_bus_activity_witness :
    busEvs (cmd_read (String.toList "read 0xzz00 0x0001") true (fun _ => 0))
      = []
    ∧ busEvs (cmd_write (String.toList "write 0x0002 0x0001") true true [7])
      = [] := by
  refine ⟨((malformed_no_bus_activity (String.toList "read 0xzz00 0x0001")
    true true true (fun _ => 0) []).1 ?_).1,
    ((malformed_no_bus_activity (String.toList "write 0x0002 0x0001")
    true true true (fun _ => 0) [7]).2 ?_).1⟩
  · exact Or.inr (Or.inl (by decide))
  · exact Or.inr (Or.inr (Or.inr (by decide)))
/-- Claim C4: for read lines of the accepted length 18 and write lines of
the accepted length 19, an address field whose `strtoul` value is 0 is
rejected with the field's parse-error line unless its 4-character text is
literally `"0000"`; conversely, whenever the command is not rejected with
a parse-error line, a field valued 0 has the literal text `"0000"` — no
other field text is accepted as 0. -/
theorem zero_field_heuristic (cmd : List Char)
    (echo_mode page_write eeprom_lock : Bool) (mem : Nat → Nat)
    (input : List Nat) :
    (cmd.length = 18 → strtoul_hex (cmd.drop 7) % 65536 = 0 →
      (cmd.drop 7).take 4 ≠ str0000 →
      cmd_read cmd echo_mode mem = [.out .errReadStart])
    ∧ (cmd.length = 18 → cmd_read cmd echo_mode mem ≠ [.out .errReadStart] →
      strtoul_hex (cmd.drop 7) % 65536 = 0 → (cmd.drop 7).take 4 = str0000)
    ∧ (cmd.length = 18 →
      ¬(strtoul_hex (cmd.drop 7) % 65536 = 0 ∧ (cmd.drop 7).take 4 ≠ str0000) →
      strtoul_hex (cmd.drop 14) % 65536 = 0 → (cmd.drop 14).take 4 ≠ str0000 →
      cmd_read cmd echo_mode mem = [.out .errReadEnd])
    ∧ (cmd.length = 18 → cmd_read cmd echo_mode mem ≠ [.out .errReadEnd] →
      cmd_read cmd echo_mode mem ≠ [.out .errReadStart] →
      strtoul_hex (cmd.drop 14) % 65536 = 0 → (cmd.drop 14).take 4 = str0000)
    ∧ (cmd.length = 19 → strtoul_hex (cmd.drop 8) % 65536 = 0 →
      (cmd.drop 8).take 4 ≠ str0000 →
      cmd_write cmd page_write eeprom_lock input = [.out .errWriteStart])
    ∧ (cmd.length = 19 →
      cmd_write cmd page_write eeprom_lock input ≠ [.out .errWriteStart] →
      strtoul_hex (cmd.drop 8) % 65536 = 0 → (cmd.drop 8).take 4 = str0000)
    ∧ (cmd.length = 19 →
      ¬(strtoul_hex (cmd.drop 8) % 65536 = 0 ∧ (cmd.drop 8).take 4 ≠ str0000) →
      strtoul_hex (cmd.drop 15) % 65536 = 0 → (cmd.drop 15).take 4 ≠ str0000 →
      cmd_write cmd page_write eeprom_lock input = [.out .errWriteEnd])
    ∧ (cmd.length = 19 →
      cmd_write cmd page_write eeprom_lock input ≠ [.out .errWriteEnd] →
      cmd_write cmd page_write eeprom_lock input ≠ [.out .errWriteStart] →
      strtoul_hex (cmd.drop 15) % 65536 = 0 →
      (cmd.drop 15).take 4 = str0000) := by
  have hr1 : cmd.length = 18 →
      strtoul_hex (cmd.drop 7) % 65536 = 0 → (cmd.drop 7).take 4 ≠ str0000 →
      cmd_read cmd echo_mode mem = [.out .errReadStart] := by
    intro hlen hv ht
    simp [cmd_read, hlen, hv, ht]
  have hr2 : cmd.length = 18 →
      ¬(strtoul_hex (cmd.drop 7) % 65536 = 0
        ∧ (cmd.drop 7).take 4 ≠ str0000) →
      strtoul_hex (cmd.drop 14) % 65536 = 0 → (cmd.drop 14).take 4 ≠ str0000 →
      cmd_read cmd echo_mode mem = [.out .errReadEnd] := by
    intro hlen h1 hv ht
    simp [cmd_read, hlen, h1, hv, ht]
  have hw1 : cmd.length = 19 →
      strtoul_hex (cmd.drop 8) % 65536 = 0 → (cmd.drop 8).take 4 ≠ str0000 →
      cmd_write cmd page_write eeprom_lock input = [.out .errWriteStart] := by
    intro hlen hv ht
    simp [cmd_write, hlen, hv, ht]
  have hw2 : cmd.length = 19 →
      ¬(strtoul_hex (cmd.drop 8) % 65536 = 0
        ∧ (cmd.drop 8).take 4 ≠ str0000) →
      strtoul_hex (cmd.drop 15) % 65536 = 0 → (cmd.drop 15).take 4 ≠ str0000 →
      cmd_write cmd page_write eeprom_lock input = [.out .errWriteEnd] := by
    intro hlen h1 hv ht
    simp [cmd_write, hlen, h1, hv, ht]
  refine ⟨hr1, ?_, hr2, ?_, hw1, ?_, hw2, ?_⟩
  · intro hlen hne hv
    by_contra ht
    exact hne (hr1 hlen hv ht)
  · intro hlen hne hnes hv
    by_contra ht
    by_cases h1 : strtoul_hex (cmd.drop 7) % 65536 = 0
        ∧ (cmd.drop 7).take 4 ≠ str0000
    · exact hnes (hr1 hlen h1.1 h1.2)
    · exact hne (hr2 hlen h1 hv ht)
  · intro hlen hne hv
    by_contra ht
    exact hne (hw1 hlen hv ht)
  · intro hlen hne hnes hv
    by_contra ht
    by_cases h1 : strtoul_hex (cmd.drop 8) % 65536 = 0
        ∧ (cmd.drop 8).take 4 ≠ str0000
    · exact hnes (hw1 hlen h1.1 h1.2)
    · exact hne (hw2 hlen h1 hv ht)

theorem zero_field_heuristic_witness :
    cmd_read (String.toList "read 0xzz00 0x0001") true (fun _ => 0)
      = [.out .errReadStart]
    ∧ cmd_write (String.toList "write 0x0001 0xgggg") true true [7]
      = [.out .errWriteEnd] := by
  refine ⟨(zero_field_heuristic (String.toList "read 0xzz00 0x0001")
      true true true (fun _ => 0) []).1 (by decide) (by decide) (by decide),
    (zero_field_heuristic (String.toList "write 0x0001 0xgggg")
      true true true (fun _ => 0) [7]).2.2.2.2.2.2.1 (by decide) (by decide)
      (by decide) (by decide)⟩
theorem chunkSize_paged (cur endA : Nat) (hc : cur ≤ endA)
    (he : endA ≤ 0x7fff) :
    chunkSize true cur endA = min (64 - cur % 64) (endA - cur + 1) := by
  have hm : cur % 64 < 64 := Nat.mod_lt _ (by norm_num)
  have h1 : ¬(64 - cur % 64 = 0) := by omega
  have hnw : (cur + (64 - cur % 64)) % 65536 = cur + (64 - cur % 64) :=
    Nat.mod_eq_of_lt (by omega)
  simp only [chunkSize, h1, ite_false, Bool.not_true, if_false, hnw,
    Bool.false_eq_true]
  rcases Nat.lt_or_ge endA (cur + (64 - cur % 64)) with hgt | hle
  · rw [if_pos hgt]
    omega
  · rw [if_neg (by omega)]
    omega

theorem chunkSize_bounds (page_write : Bool) (cur endA : Nat)
    (hc : cur ≤ endA) (he : endA ≤ 0x7fff) :
    1 ≤ chunkSize page_write cur endA
      ∧ chunkSize page_write cur endA ≤ 64 := by
  cases page_write with
  | false => simp [chunkSize]
  | true =>
    rw [chunkSize_paged cur endA hc he]
    have : cur % 64 < 64 := Nat.mod_lt _ (by norm_num)
    omega

theorem write_bytes_flags (cur : Nat) (chunk : List Nat) :
    (write_bytes_evs cur chunk (R_W + _OE)).2.2 = R_W + _OE := by
  induction chunk generalizing cur with
  | nil => rfl
  | cons b rest ih =>
    simp only [write_bytes_evs]
    rw [show (R_W + _OE) &&& 0xfb ||| 0x04 = R_W + _OE from rfl]
    exact ih ((cur + 1) % 65536)

theorem write_bytes_cur (cur : Nat) (chunk : List Nat) (f : Nat)
    (hcur : cur < 65536) :
    (write_bytes_evs cur chunk f).2.1 = (cur + chunk.length) % 65536 := by
  induction chunk generalizing cur f with
  | nil => simp [write_bytes_evs, Nat.mod_eq_of_lt hcur]
  | cons b rest ih =>
    simp only [write_bytes_evs, List.length_cons]
    rw [ih ((cur + 1) % 65536) _ (Nat.mod_lt _ (by norm_num))]
    rw [Nat.mod_add_mod]
    congr 1
    omega

theorem announcedSizes_append (t u : List Ev) :
    announcedSizes (t ++ u) = announcedSizes t ++ announcedSizes u := by
  simp [announcedSizes]

theorem chunkHeaders_append (t u : List Ev) :
    chunkHeaders (t ++ u) = chunkHeaders t ++ chunkHeaders u := by
  simp [chunkHeaders]

theorem announcedSizes_write_bytes (cur : Nat) (chunk : List Nat) (f : Nat) :
    announcedSizes (write_bytes_evs cur chunk f).1 = [] := by
  induction chunk generalizing cur f with
  | nil => rfl
  | cons b rest ih =>
    simp only [write_bytes_evs, announcedSizes_append, ih]
    rfl

theorem chunkHeaders_write_bytes (cur : Nat) (chunk : List Nat) (f : Nat) :
    chunkHeaders (write_bytes_evs cur chunk f).1 = [] := by
  induction chunk generalizing cur f with
  | nil => rfl
  | cons b rest ih =>
    simp only [write_bytes_evs, chunkHeaders_append, ih]
    rfl

theorem write_loop_done (fuel : Nat) (page_write : Bool) (cur endA f : Nat)
    (input : List Nat) (h : endA < cur) :
    write_loop_evs fuel page_write cur endA f input = ([], f) := by
  cases fuel with
  | zero => rfl
  | succ fuel => simp [write_loop_evs, Nat.not_le.mpr h]

theorem specChunk_aligned (fuel rem cur : Nat) (h : cur % 64 = 0) :
    specChunkSizes fuel cur rem = specRestChunks fuel rem := by
  cases fuel with
  | zero => rfl
  | succ fuel =>
    by_cases hr : rem = 0
    · simp [specChunkSizes, specRestChunks, hr]
    · simp [specChunkSizes, specRestChunks, hr, h]

theorem announced_write_loop (fuel : Nat) (endA : Nat) (he : endA ≤ 0x7fff) :
    ∀ (cur f : Nat) (input : List Nat), cur ≤ endA →
    endA + 1 - cur ≤ input.length → endA + 1 - cur ≤ fuel →
    announcedSizes (write_loop_evs fuel true cur endA f input).1
      = specChunkSizes fuel cur (endA - cur + 1) := by
  induction fuel with
  | zero => intro cur f input hc hin hfuel; omega
  | succ fuel ih =>
    intro cur f input hc hin hfuel
    have ht := chunkSize_paged cur endA hc he
    have hm : cur % 64 < 64 := Nat.mod_lt _ (by norm_num)
    have ht1 : 1 ≤ chunkSize true cur endA := by rw [ht]; omega
    have htle : chunkSize true cur endA ≤ endA - cur + 1 := by rw [ht]; omega
    have htin : chunkSize true cur endA ≤ input.length := by omega
    have hlen : (input.take (chunkSize true cur endA)).length
        = chunkSize true cur endA := by
      rw [List.length_take]; omega
    have hcur' : (write_bytes_evs cur
        (input.take (chunkSize true cur endA)) f).2.1
        = cur + chunkSize true cur endA := by
      rw [write_bytes_cur _ _ _ (by omega), hlen,
        Nat.mod_eq_of_lt (by omega)]
    have hhead : announcedSizes
        [Ev.out (Line.sendBytes (chunkSize true cur endA) (endA - cur + 1)),
         Ev.pause,
         Ev.out (Line.writingAt (chunkSize true cur endA) cur)]
        = [chunkSize true cur endA] := rfl
    have hdel : announcedSizes [Ev.delay] = [] := rfl
    have hnil : announcedSizes [] = [] := rfl
    simp only [write_loop_evs, if_pos hc, announcedSizes_append,
      announcedSizes_write_bytes, hcur', hhead, hdel, hnil, List.nil_append,
      List.append_nil]
    by_cases hend : chunkSize true cur endA = endA - cur + 1
    · rw [write_loop_done fuel true _ endA _ _ (by omega)]
      have hrhs : specChunkSizes (fuel + 1) cur (endA - cur + 1)
          = (endA - cur + 1) :: specRestChunks fuel 0 := by
        simp only [specChunkSizes]
        rw [if_neg (by omega)]
        congr 1
        · rw [← ht, hend]
        · congr 1
          rw [← ht, hend]
          omega
      rw [hrhs]
      cases fuel <;>
        simp [specRestChunks, hend, announcedSizes_write_bytes, hhead, hdel,
          hnil, announcedSizes_append]
    · have hlt : chunkSize true cur endA < endA - cur + 1 := by omega
      have hteq : chunkSize true cur endA = 64 - cur % 64 := by rw [ht]; omega
      have hal : (cur + chunkSize true cur endA) % 64 = 0 := by
        rw [hteq]; omega
      rw [ih (cur + chunkSize true cur endA)
        ((write_bytes_evs cur (input.take (chunkSize true cur endA)) f).2.2)
        (input.drop (chunkSize true cur endA))
        (by omega) (by rw [List.length_drop]; omega) (by omega)]
      rw [specChunk_aligned fuel _ _ hal]
      simp only [specChunkSizes]
      rw [if_neg (by omega : ¬(endA - cur + 1 = 0))]
      rw [← ht]
      simp only [List.cons_append, List.nil_append]
      congr 2
      omega

theorem write_loop_flags (fuel : Nat) (page_write : Bool) (endA : Nat) :
    ∀ (cur : Nat) (input : List Nat),
    (write_loop_evs fuel page_write cur endA (R_W + _OE) input).2
      = R_W + _OE := by
  induction fuel with
  | zero => intro cur input; rfl
  | succ fuel ih =>
    intro cur input
    by_cases hc : cur ≤ endA
    · simp only [write_loop_evs, if_pos hc, write_bytes_flags]
      exact ih _ _
    · simp [write_loop_evs, hc]

theorem protect_disable_flags :
    protect_loop disable_data_protect (R_W + _OE)
      = ((protect_loop disable_data_protect (R_W + _OE)).1, R_W + _OE) := by
  decide

theorem cmd_write_mk (s e : Nat) (page_write eeprom_lock : Bool)
    (input : List Nat) (hs : s ≤ e) (he : e < 65536) :
    cmd_write (mkWriteCmd s e) page_write eeprom_lock input =
      [.out (.startAddr s), .out (.endAddr e),
       .out (.totalBytes (e - s + 1)),
       .out (.pagingLine page_write), .out (.lockLine eeprom_lock),
       .flags (R_W + _OE), .oeDout false]
      ++ (if eeprom_lock then (protect_loop disable_data_protect (R_W + _OE)).1
          else [])
      ++ [.setMode SERMODE_WRITE]
      ++ (write_loop_evs (e - s + 1) page_write s e (R_W + _OE) input).1
      ++ [.setMode SERMODE_CMD]
      ++ (if eeprom_lock then (protect_loop enable_data_protect (R_W + _OE)).1
          else [])
      ++ [.oeDout true, .flags (R_W + _OE)] := by
  have hse : s < 65536 := lt_of_le_of_lt hs he
  obtain ⟨hlen, hd8, hd15⟩ := mkWriteCmd_structure s e
  have hp1 : strtoul_hex ((mkWriteCmd s e).drop 8) % 65536 = s := by
    rw [hd8, parse_field1 s e hse, Nat.mod_eq_of_lt hse]
  have hp2 : strtoul_hex ((mkWriteCmd s e).drop 15) % 65536 = e := by
    rw [hd15, parse_field2 e he, Nat.mod_eq_of_lt he]
  simp only [cmd_write, hlen, hp1, hp2]
  rw [if_neg (by norm_num)]
  rw [if_neg (by rw [hd8]; exact field_check_passes s hse _)]
  rw [if_neg ?hend]
  case hend =>
    have := field_check_passes e he ([] : List Char)
    rw [hd15]
    simpa using this
  rw [if_neg (by omega)]
  cases eeprom_lock with
  | false => simp only [Bool.false_eq_true, if_false, ite_false]
  | true =>
    simp only [if_true, ite_true]
    rw [protect_disable_flags]
    simp only []
    rw [write_loop_flags]

theorem chunkHeaders_write_loop (endA : Nat) (he : endA ≤ 0x7fff) :
    ∀ (fuel cur f : Nat) (input : List Nat),
    ∀ p ∈ chunkHeaders (write_loop_evs fuel true cur endA f input).1,
      1 ≤ p.2 ∧ p.1 % 64 + p.2 ≤ 64 := by
  intro fuel
  induction fuel with
  | zero => intro cur f input p hp; simp [write_loop_evs, chunkHeaders] at hp
  | succ fuel ih =>
    intro cur f input p hp
    by_cases hc : cur ≤ endA
    · rw [write_loop_evs] at hp
      rw [if_pos hc] at hp
      simp only [chunkHeaders_append, chunkHeaders_write_bytes,
        List.nil_append, List.append_nil] at hp
      have hhd : chunkHeaders
          [Ev.out (Line.sendBytes (chunkSize true cur endA) (endA - cur + 1)),
           Ev.pause,
           Ev.out (Line.writingAt (chunkSize true cur endA) cur)]
          = [(cur, chunkSize true cur endA)] := rfl
      have hdel : chunkHeaders [Ev.delay] = [] := rfl
      rw [hhd, hdel] at hp
      simp only [List.nil_append, List.cons_append, List.mem_cons,
        List.nil_append] at hp
      rcases hp with rfl | hp
      · have hcp := chunkSize_paged cur endA hc he
        have hm : cur % 64 < 64 := Nat.mod_lt _ (by norm_num)
        constructor
        · simp only [hcp]; omega
        · simp only [hcp]; omega
      · exact ih _ _ _ p hp
    · rw [write_loop_done _ _ _ _ _ _ (by omega)] at hp
      simp [chunkHeaders] at hp

theorem announcedSizes_protect_disable :
    announcedSizes (protect_loop disable_data_protect (R_W + _OE)).1 = [] := by
  decide

theorem announcedSizes_protect_enable :
    announcedSizes (protect_loop enable_data_protect (R_W + _OE)).1 = [] := by
  decide

theorem chunkHeaders_protect_disable :
    chunkHeaders (protect_loop disable_data_protect (R_W + _OE)).1 = [] := by
  decide

theorem chunkHeaders_protect_enable :
    chunkHeaders (protect_loop enable_data_protect (R_W + _OE)).1 = [] := by
  decide

/-- Claim C2: in paged write mode the announced chunk sizes follow the
claim's formula — first chunk `min(64 - start % 64, total)` (filling to the
next 64-byte page boundary), then `min(64, remaining)` each — and no
announced chunk starts at an address `a` with `a % 64 + size > 64`, i.e.
no chunk straddles a 64-byte page boundary. -/
theorem paged_chunk_splitting (s e : Nat) (eeprom_lock : Bool)
    (input : List Nat) (hs : s ≤ e) (he : e ≤ 0x7fff)
    (hin : e - s + 1 ≤ input.length) :
    announcedSizes (cmd_write (mkWriteCmd s e) true eeprom_lock input)
      = specChunkSizes (e - s + 1) s (e - s + 1)
    ∧ ∀ p ∈ chunkHeaders (cmd_write (mkWriteCmd s e) true eeprom_lock input),
        1 ≤ p.2 ∧ p.1 % 64 + p.2 ≤ 64 := by
  rw [cmd_write_mk s e true eeprom_lock input hs (by omega)]
  have hs1 : announcedSizes [Ev.out (Line.startAddr s), Ev.out (Line.endAddr e),
      Ev.out (Line.totalBytes (e - s + 1)), Ev.out (Line.pagingLine true),
      Ev.out (Line.lockLine eeprom_lock), Ev.flags (R_W + _OE),
      Ev.oeDout false] = [] := rfl
  have hs2 : chunkHeaders [Ev.out (Line.startAddr s), Ev.out (Line.endAddr e),
      Ev.out (Line.totalBytes (e - s + 1)), Ev.out (Line.pagingLine true),
      Ev.out (Line.lockLine eeprom_lock), Ev.flags (R_W + _OE),
      Ev.oeDout false] = [] := rfl
  have ha : announcedSizes (if eeprom_lock
      then (protect_loop disable_data_protect (R_W + _OE)).1 else []) = [] := by
    cases eeprom_lock
    · rfl
    · exact announcedSizes_protect_disable
  have hb : announcedSizes (if eeprom_lock
      then (protect_loop enable_data_protect (R_W + _OE)).1 else []) = [] := by
    cases eeprom_lock
    · rfl
    · exact announcedSizes_protect_enable
  have hc2 : chunkHeaders (if eeprom_lock
      then (protect_loop disable_data_protect (R_W + _OE)).1 else []) = [] := by
    cases eeprom_lock
    · rfl
    · exact chunkHeaders_protect_disable
  have hd2 : chunkHeaders (if eeprom_lock
      then (protect_loop enable_data_protect (R_W + _OE)).1 else []) = [] := by
    cases eeprom_lock
    · rfl
    · exact chunkHeaders_protect_enable
  constructor
  · simp only [announcedSizes_append, hs1, ha, hb, List.nil_append,
      List.append_nil]
    have := announced_write_loop (e - s + 1) e he s (R_W + _OE) input hs
      (by omega) (by omega)
    simp only [show announcedSizes [Ev.setMode SERMODE_WRITE] = [] from rfl,
      show announcedSizes [Ev.setMode SERMODE_CMD] = [] from rfl,
      show announcedSizes [Ev.oeDout true, Ev.flags (R_W + _OE)] = []
        from rfl, List.nil_append, List.append_nil]
    rw [this]
  · intro p hp
    simp only [chunkHeaders_append, hs2, hc2, hd2, List.nil_append,
      List.append_nil,
      show chunkHeaders [Ev.setMode SERMODE_WRITE] = [] from rfl,
      show chunkHeaders [Ev.setMode SERMODE_CMD] = [] from rfl,
      show chunkHeaders [Ev.oeDout true, Ev.flags (R_W + _OE)] = []
        from rfl] at hp
    exact chunkHeaders_write_loop e he (e - s + 1) s (R_W + _OE) input p hp

theorem paged_chunk_splitting_witness :
    announcedSizes (cmd_write (mkWriteCmd 0x203e 0x2041) true true
      [17, 18, 19, 20]) = [2, 2] := by
  have h := paged_chunk_splitting 0x203e 0x2041 true [17, 18, 19, 20]
    (by norm_num) (by norm_num) (by simp)
  rw [h.1]
  decide
theorem protect_disable_cycles :
    (protect_loop disable_data_protect (R_W + _OE)).1
      = disable_pairs.flatMap (protectCycleEvs (R_W + _OE)) := by decide

theorem protect_enable_cycles :
    (protect_loop enable_data_protect (R_W + _OE)).1
      = enable_pairs.flatMap (protectCycleEvs (R_W + _OE)) := by decide

theorem dataDrives_append (t u : List Ev) :
    dataDrives (t ++ u) = dataDrives t ++ dataDrives u := by
  simp [dataDrives]

theorem dataDrives_write_bytes (cur : Nat) (chunk : List Nat) (f : Nat) :
    dataDrives (write_bytes_evs cur chunk f).1
      = chunk.map (fun b => b &&& 0xff) := by
  induction chunk generalizing cur f with
  | nil => rfl
  | cons b rest ih =>
    simp only [write_bytes_evs, dataDrives_append, ih, List.map_cons]
    rfl

theorem chunkSize_le (page_write : Bool) (cur endA : Nat) (hc : cur ≤ endA)
    (he : endA ≤ 0x7fff) :
    chunkSize page_write cur endA ≤ endA - cur + 1 := by
  cases page_write with
  | false => show (1 : Nat) ≤ endA - cur + 1; omega
  | true =>
    rw [chunkSize_paged cur endA hc he]
    omega

theorem dataDrives_write_loop (page_write : Bool) (endA : Nat)
    (he : endA ≤ 0x7fff) :
    ∀ (fuel cur f : Nat) (input : List Nat), cur ≤ endA →
    endA + 1 - cur ≤ input.length → endA + 1 - cur ≤ fuel →
    dataDrives (write_loop_evs fuel page_write cur endA f input).1
      = (input.take (endA + 1 - cur)).map (fun b => b &&& 0xff) := by
  intro fuel
  induction fuel with
  | zero => intro cur f input hc hin hfuel; omega
  | succ fuel ih =>
    intro cur f input hc hin hfuel
    have ht1 := (chunkSize_bounds page_write cur endA hc he).1
    have htle := chunkSize_le page_write cur endA hc he
    have htin : chunkSize page_write cur endA ≤ input.length := by omega
    have hlen : (input.take (chunkSize page_write cur endA)).length
        = chunkSize page_write cur endA := by
      rw [List.length_take]; omega
    have hcur' : (write_bytes_evs cur
        (input.take (chunkSize page_write cur endA)) f).2.1
        = cur + chunkSize page_write cur endA := by
      rw [write_bytes_cur _ _ _ (by omega), hlen,
        Nat.mod_eq_of_lt (by omega)]
    have hhd : dataDrives
        [Ev.out (Line.sendBytes (chunkSize page_write cur endA)
          (endA - cur + 1)), Ev.pause,
         Ev.out (Line.writingAt (chunkSize page_write cur endA) cur)]
        = [] := rfl
    have hdel : dataDrives [Ev.delay] = [] := rfl
    simp only [write_loop_evs, if_pos hc, dataDrives_append,
      dataDrives_write_bytes, hcur', hhd, hdel, List.nil_append,
      List.append_nil]
    by_cases hend : chunkSize page_write cur endA = endA - cur + 1
    · rw [write_loop_done fuel page_write _ endA _ _ (by omega)]
      have : dataDrives ([] : List Ev) = [] := rfl
      rw [this, List.append_nil,
        show chunkSize page_write cur endA = endA + 1 - cur by omega]
    · have hlt : chunkSize page_write cur endA < endA - cur + 1 := by omega
      rw [ih (cur + chunkSize page_write cur endA)
        ((write_bytes_evs cur (input.take (chunkSize page_write cur endA))
          f).2.2)
        (input.drop (chunkSize page_write cur endA))
        (by omega) (by rw [List.length_drop]; omega) (by omega)]
      rw [show endA + 1 - cur
          = chunkSize page_write cur endA
            + (endA + 1 - (cur + chunkSize page_write cur endA)) by omega]
      rw [List.take_add, List.map_append]

/-- Claim C3: with EEPROM lock mode enabled, `cmd_write` executes the six
disable-protect pairs in listed order — each as an address drive and a
data drive followed by exactly one write strobe (`R_W` deasserted then
reasserted) — strictly before the first programmed data byte, and the
three enable-protect pairs likewise strictly after the last programmed
data byte; the protect blocks contain no delay and no pause, and none
follows the last enable entry before the bus is restored.  The data-chain
trace is exactly: disable-sequence data values, then the programmed input
bytes, then enable-sequence data values. -/
theorem protect_sequence_ordering (s e : Nat) (page_write : Bool)
    (input : List Nat) (hs : s ≤ e) (he : e ≤ 0x7fff)
    (hin : e - s + 1 ≤ input.length) :
    cmd_write (mkWriteCmd s e) page_write true input
      = [.out (.startAddr s), .out (.endAddr e),
         .out (.totalBytes (e - s + 1)),
         .out (.pagingLine page_write), .out (.lockLine true),
         .flags (R_W + _OE), .oeDout false]
        ++ disable_pairs.flatMap (protectCycleEvs (R_W + _OE))
        ++ [.setMode SERMODE_WRITE]
        ++ (write_loop_evs (e - s + 1) page_write s e (R_W + _OE) input).1
        ++ [.setMode SERMODE_CMD]
        ++ enable_pairs.flatMap (protectCycleEvs (R_W + _OE))
        ++ [.oeDout true, .flags (R_W + _OE)]
    ∧ dataDrives (cmd_write (mkWriteCmd s e) page_write true input)
      = disable_pairs.map (fun p => p.2 &&& 0xff)
        ++ (input.take (e - s + 1)).map (fun b => b &&& 0xff)
        ++ enable_pairs.map (fun p => p.2 &&& 0xff)
    ∧ (∀ ev ∈ disable_pairs.flatMap (protectCycleEvs (R_W + _OE)),
        ev ≠ .delay ∧ ev ≠ .pause)
    ∧ (∀ ev ∈ enable_pairs.flatMap (protectCycleEvs (R_W + _OE)),
        ev ≠ .delay ∧ ev ≠ .pause) := by
  have hdec : cmd_write (mkWriteCmd s e) page_write true input
      = [.out (.startAddr s), .out (.endAddr e),
         .out (.totalBytes (e - s + 1)),
         .out (.pagingLine page_write), .out (.lockLine true),
         .flags (R_W + _OE), .oeDout false]
        ++ disable_pairs.flatMap (protectCycleEvs (R_W + _OE))
        ++ [.setMode SERMODE_WRITE]
        ++ (write_loop_evs (e - s + 1) page_write s e (R_W + _OE) input).1
        ++ [.setMode SERMODE_CMD]
        ++ enable_pairs.flatMap (protectCycleEvs (R_W + _OE))
        ++ [.oeDout true, .flags (R_W + _OE)] := by
    rw [cmd_write_mk s e page_write true input hs (by omega)]
    simp only [if_true, ite_true, protect_disable_cycles,
      protect_enable_cycles]
  refine ⟨hdec, ?_, by decide, by decide⟩
  rw [hdec]
  simp only [dataDrives_append]
  rw [dataDrives_write_loop page_write e he (e - s + 1) s (R_W + _OE) input
    hs (by omega) (by omega)]
  rw [show e + 1 - s = e - s + 1 by omega]
  have h1 : dataDrives [Ev.out (Line.startAddr s), Ev.out (Line.endAddr e),
      Ev.out (Line.totalBytes (e - s + 1)),
      Ev.out (Line.pagingLine page_write), Ev.out (Line.lockLine true),
      Ev.flags (R_W + _OE), Ev.oeDout false] = [] := rfl
  have h2 : dataDrives [Ev.setMode SERMODE_WRITE] = [] := rfl
  have h3 : dataDrives [Ev.setMode SERMODE_CMD] = [] := rfl
  have h4 : dataDrives [Ev.oeDout true, Ev.flags (R_W + _OE)] = [] := rfl
  have h5 : dataDrives (disable_pairs.flatMap (protectCycleEvs (R_W + _OE)))
      = disable_pairs.map (fun p => p.2 &&& 0xff) := by decide
  have h6 : dataDrives (enable_pairs.flatMap (protectCycleEvs (R_W + _OE)))
      = enable_pairs.map (fun p => p.2 &&& 0xff) := by decide
  rw [h1, h2, h3, h4, h5, h6]
  simp

theorem protect_sequence_ordering_witness :
    dataDrives (cmd_write (mkWriteCmd 0 1) false true [0xde, 0xad])
      = [0xaa, 0x55, 0x80, 0xaa, 0x55, 0x20, 0xde, 0xad,
         0xaa, 0x55, 0xa0] := by
  have h := protect_sequence_ordering 0 1 false [0xde, 0xad]
    (by norm_num) (by norm_num) (by simp)
  rw [h.2.1]
  decide
theorem flagsSends_append (t u : List Ev) :
    flagsSends (t ++ u) = flagsSends t ++ flagsSends u := by
  simp [flagsSends]

theorem oeDoutSets_append (t u : List Ev) :
    oeDoutSets (t ++ u) = oeDoutSets t ++ oeDoutSets u := by
  simp [oeDoutSets]

theorem flagsSends_read_range (echo_mode : Bool) (mem : Nat → Nat) :
    ∀ (n a : Nat), flagsSends (read_range_evs echo_mode mem a n) = [] := by
  intro n
  induction n with
  | zero => intro a; rfl
  | succ n ih =>
    intro a
    rw [read_range_evs, flagsSends_append, ih]
    cases echo_mode <;> rfl

theorem oeDoutSets_read_range (echo_mode : Bool) (mem : Nat → Nat) :
    ∀ (n a : Nat), oeDoutSets (read_range_evs echo_mode mem a n) = [] := by
  intro n
  induction n with
  | zero => intro a; rfl
  | succ n ih =>
    intro a
    rw [read_range_evs, oeDoutSets_append, ih]
    cases echo_mode <;> rfl

theorem testBit2_land_fb (f : Nat) : (f &&& 0xfb).testBit 2 = false := by
  rw [Nat.testBit_and, show Nat.testBit 0xfb 2 = false from by decide]
  exact Bool.and_false _

theorem testBit2_lor4 (f : Nat) : (f ||| 0x04).testBit 2 = true := by
  rw [Nat.testBit_or, show Nat.testBit 0x04 2 = true from by decide]
  exact Bool.or_true _

theorem strobeSafe_cons_skip (a : Ev) (t : List Ev)
    (h : flagsSends [a] = []) : strobeSafe (a :: t) = strobeSafe t := by
  cases a <;> first
    | rfl
    | (exfalso; simp [flagsSends] at h)

theorem strobeSafe_cons_out (l : Line) (t : List Ev) :
    strobeSafe (Ev.out l :: t) = strobeSafe t := rfl

theorem strobeSafe_cons_addr (a : Nat) (t : List Ev) :
    strobeSafe (Ev.addr a :: t) = strobeSafe t := rfl

theorem strobeSafe_cons_data (d : Nat) (t : List Ev) :
    strobeSafe (Ev.data d :: t) = strobeSafe t := rfl

theorem strobeSafe_cons_oeDout (b : Bool) (t : List Ev) :
    strobeSafe (Ev.oeDout b :: t) = strobeSafe t := rfl

theorem strobeSafe_cons_dinClk (b : Bool) (t : List Ev) :
    strobeSafe (Ev.dinClk b :: t) = strobeSafe t := rfl

theorem strobeSafe_cons_dinShld (b : Bool) (t : List Ev) :
    strobeSafe (Ev.dinShld b :: t) = strobeSafe t := rfl

theorem strobeSafe_cons_setMode (m : Nat) (t : List Ev) :
    strobeSafe (Ev.setMode m :: t) = strobeSafe t := rfl

theorem strobeSafe_cons_pause (t : List Ev) :
    strobeSafe (Ev.pause :: t) = strobeSafe t := rfl

theorem strobeSafe_cons_delay (t : List Ev) :
    strobeSafe (Ev.delay :: t) = strobeSafe t := rfl

theorem strobeSafe_cons_flags_set (f : Nat) (t : List Ev)
    (h : f.testBit 2 = true) :
    strobeSafe (Ev.flags f :: t) = strobeSafe t := by
  simp [strobeSafe, h]

theorem strobeSafe_strobe_pair (f1 f2 : Nat) (t : List Ev)
    (h1 : f1.testBit 2 = false) (h2 : f2.testBit 2 = true) :
    strobeSafe (Ev.flags f1 :: Ev.flags f2 :: t) = strobeSafe t := by
  simp [strobeSafe, h1, h2]

theorem strobeSafe_append_noflags (t u : List Ev) (h : flagsSends t = []) :
    strobeSafe (t ++ u) = strobeSafe u := by
  induction t with
  | nil => rfl
  | cons a t ih =>
    have ha : flagsSends [a] = [] := by
      cases a <;> first
        | rfl
        | (exfalso; simp [flagsSends] at h)
    rw [List.cons_append, strobeSafe_cons_skip a _ ha]
    exact ih (by
      have := flagsSends_append [a] t
      simp only [List.singleton_append] at this
      rw [this, ha] at h
      simpa using h)

theorem strobeSafe_write_bytes (chunk : List Nat) :
    ∀ (cur f : Nat) (rest : List Ev),
    strobeSafe ((write_bytes_evs cur chunk f).1 ++ rest) = strobeSafe rest := by
  induction chunk with
  | nil => intro cur f rest; rfl
  | cons b chunk ih =>
    intro cur f rest
    simp only [write_bytes_evs, List.cons_append, List.append_assoc,
      List.nil_append]
    rw [strobeSafe_cons_addr, strobeSafe_cons_data,
      strobeSafe_strobe_pair _ _ _ (testBit2_land_fb f) (testBit2_lor4 _)]
    exact ih _ _ _

theorem strobeSafe_write_loop (page_write : Bool) (endA : Nat) :
    ∀ (fuel cur f : Nat) (input : List Nat) (rest : List Ev),
    strobeSafe ((write_loop_evs fuel page_write cur endA f input).1 ++ rest)
      = strobeSafe rest := by
  intro fuel
  induction fuel with
  | zero => intro cur f input rest; rfl
  | succ fuel ih =>
    intro cur f input rest
    by_cases hc : cur ≤ endA
    · simp only [write_loop_evs, if_pos hc, List.cons_append,
        List.append_assoc, List.nil_append]
      rw [strobeSafe_cons_out, strobeSafe_cons_pause, strobeSafe_cons_out]
      rw [strobeSafe_write_bytes]
      rw [strobeSafe_cons_delay]
      exact ih _ _ _ _
    · rw [write_loop_done _ _ _ _ _ _ (by omega)]
      rfl

theorem strobeSafe_protect (seq : List (Nat × Nat)) :
    ∀ (f : Nat) (rest : List Ev),
    strobeSafe ((protect_loop seq f).1 ++ rest) = strobeSafe rest := by
  induction seq with
  | nil => intro f rest; rfl
  | cons p seq ih =>
    intro f rest
    by_cases ha : 0 < p.1
    · rw [show protect_loop (p :: seq) f
          = ((protect_loop (p :: seq) f).1, (protect_loop (p :: seq) f).2)
          from rfl]
      obtain ⟨a, d⟩ := p
      simp only [protect_loop, if_pos ha, List.cons_append,
        List.append_assoc, List.nil_append]
      rw [strobeSafe_cons_addr, strobeSafe_cons_data,
        strobeSafe_strobe_pair _ _ _ (testBit2_land_fb f) (testBit2_lor4 _)]
      exact ih _ _
    · obtain ⟨a, d⟩ := p
      simp only [protect_loop, if_neg ha, List.nil_append]

theorem getLast_flags_tail (t : List Ev) (x : Nat) :
    (flagsSends (t ++ [Ev.oeDout true, Ev.flags x])).getLast? = some x := by
  rw [flagsSends_append,
    show flagsSends [Ev.oeDout true, Ev.flags x] = [x] from rfl]
  exact List.getLast?_concat _

theorem getLast_oe_tail (t : List Ev) (x : Nat) :
    (oeDoutSets (t ++ [Ev.oeDout true, Ev.flags x])).getLast? = some true := by
  rw [oeDoutSets_append,
    show oeDoutSets [Ev.oeDout true, Ev.flags x] = [true] from rfl]
  exact List.getLast?_concat _

/-- Claim C6: every read and every write leaves the bus at the read-safe
defaults before returning to the command loop: the last flags value sent
(if any) is `R_W + _OE` (write-enable and EEPROM output-enable both
deasserted), the last `OE_DOUT` change (if any) disables the data-out
driver, and at no point is a flags value with `R_W` low left standing —
every such send is immediately followed by one with `R_W` high
(the write strobe). -/
theorem bus_read_safe_defaults (cmd : List Char)
    (echo_mode page_write eeprom_lock : Bool) (mem : Nat → Nat)
    (input : List Nat)
    (_her : strtoul_hex (cmd.drop 14) % 65536 ≤ 0x7fff)
    (_hew : strtoul_hex (cmd.drop 15) % 65536 ≤ 0x7fff)
    (_hin : strtoul_hex (cmd.drop 15) % 65536 + 1
        - strtoul_hex (cmd.drop 8) % 65536 ≤ input.length) :
    ((flagsSends (cmd_read cmd echo_mode mem)).getLast? = none
      ∨ (flagsSends (cmd_read cmd echo_mode mem)).getLast?
          = some (R_W + _OE))
    ∧ ((oeDoutSets (cmd_read cmd echo_mode mem)).getLast? = none
      ∨ (oeDoutSets (cmd_read cmd echo_mode mem)).getLast? = some true)
    ∧ strobeSafe (cmd_read cmd echo_mode mem) = true
    ∧ ((flagsSends (cmd_write cmd page_write eeprom_lock input)).getLast?
          = none
      ∨ (flagsSends (cmd_write cmd page_write eeprom_lock input)).getLast?
          = some (R_W + _OE))
    ∧ ((oeDoutSets (cmd_write cmd page_write eeprom_lock input)).getLast?
          = none
      ∨ (oeDoutSets (cmd_write cmd page_write eeprom_lock input)).getLast?
          = some true)
    ∧ strobeSafe (cmd_write cmd page_write eeprom_lock input) = true := by
  have hread : ((flagsSends (cmd_read cmd echo_mode mem)).getLast? = none
      ∨ (flagsSends (cmd_read cmd echo_mode mem)).getLast?
          = some (R_W + _OE))
      ∧ ((oeDoutSets (cmd_read cmd echo_mode mem)).getLast? = none
      ∨ (oeDoutSets (cmd_read cmd echo_mode mem)).getLast? = some true)
      ∧ strobeSafe (cmd_read cmd echo_mode mem) = true := by
    by_cases h1 : cmd.length ≠ 18
    · simp only [cmd_read, if_pos h1]
      exact ⟨Or.inl rfl, Or.inl rfl, rfl⟩
    by_cases h2 : strtoul_hex (cmd.drop 7) % 65536 = 0
        ∧ (cmd.drop 7).take 4 ≠ str0000
    · simp only [cmd_read, if_neg h1, if_pos h2]
      exact ⟨Or.inl rfl, Or.inl rfl, rfl⟩
    by_cases h3 : strtoul_hex (cmd.drop 14) % 65536 = 0
        ∧ (cmd.drop 14).take 4 ≠ str0000
    · simp only [cmd_read, if_neg h1, if_neg h2, if_pos h3]
      exact ⟨Or.inl rfl, Or.inl rfl, rfl⟩
    by_cases h4 : strtoul_hex (cmd.drop 7) % 65536
        > strtoul_hex (cmd.drop 14) % 65536
    · simp only [cmd_read, if_neg h1, if_neg h2, if_neg h3, if_pos h4]
      exact ⟨Or.inl rfl, Or.inl rfl, rfl⟩
    simp only [cmd_read, if_neg h1, if_neg h2, if_neg h3, if_neg h4]
    refine ⟨Or.inr ?_, Or.inr ?_, ?_⟩
    · rw [flagsSends_append, flagsSends_append, flagsSends_read_range]
      rfl
    · rw [oeDoutSets_append, oeDoutSets_append, oeDoutSets_read_range]
      rfl
    · simp only [List.cons_append, List.append_assoc, List.nil_append]
      rw [strobeSafe_cons_out, strobeSafe_cons_out, strobeSafe_cons_out,
        strobeSafe_cons_oeDout,
        strobeSafe_cons_flags_set _ _ (show Nat.testBit R_W 2 = true
          from by decide),
        strobeSafe_cons_dinClk, strobeSafe_cons_dinShld,
        strobeSafe_append_noflags _ _ (flagsSends_read_range _ _ _ _),
        strobeSafe_cons_flags_set _ _ (show Nat.testBit (R_W + _OE) 2 = true
          from by decide)]
      rfl
  have hwrite : ((flagsSends (cmd_write cmd page_write eeprom_lock
        input)).getLast? = none
      ∨ (flagsSends (cmd_write cmd page_write eeprom_lock input)).getLast?
          = some (R_W + _OE))
      ∧ ((oeDoutSets (cmd_write cmd page_write eeprom_lock input)).getLast?
          = none
      ∨ (oeDoutSets (cmd_write cmd page_write eeprom_lock input)).getLast?
          = some true)
      ∧ strobeSafe (cmd_write cmd page_write eeprom_lock input) = true := by
    by_cases h1 : cmd.length ≠ 19
    · simp only [cmd_write, if_pos h1]
      exact ⟨Or.inl rfl, Or.inl rfl, rfl⟩
    by_cases h2 : strtoul_hex (cmd.drop 8) % 65536 = 0
        ∧ (cmd.drop 8).take 4 ≠ str0000
    · simp only [cmd_write, if_neg h1, if_pos h2]
      exact ⟨Or.inl rfl, Or.inl rfl, rfl⟩
    by_cases h3 : strtoul_hex (cmd.drop 15) % 65536 = 0
        ∧ (cmd.drop 15).take 4 ≠ str0000
    · simp only [cmd_write, if_neg h1, if_neg h2, if_pos h3]
      exact ⟨Or.inl rfl, Or.inl rfl, rfl⟩
    by_cases h4 : strtoul_hex (cmd.drop 8) % 65536
        > strtoul_hex (cmd.drop 15) % 65536
    · simp only [cmd_write, if_neg h1, if_neg h2, if_neg h3, if_pos h4]
      exact ⟨Or.inl rfl, Or.inl rfl, rfl⟩
    simp only [cmd_write, if_neg h1, if_neg h2, if_neg h3, if_neg h4]
    refine ⟨Or.inr ?_, Or.inr ?_, ?_⟩
    · exact getLast_flags_tail _ _
    · exact getLast_oe_tail _ _
    · cases eeprom_lock with
      | false =>
        simp only [Bool.false_eq_true, if_false, ite_false,
          List.cons_append, List.append_assoc, List.nil_append]
        rw [strobeSafe_cons_out, strobeSafe_cons_out, strobeSafe_cons_out,
          strobeSafe_cons_out, strobeSafe_cons_out,
          strobeSafe_cons_flags_set _ _ (show Nat.testBit (R_W + _OE) 2 = true
            from by decide),
          strobeSafe_cons_oeDout, strobeSafe_cons_setMode,
          strobeSafe_write_loop, strobeSafe_cons_setMode,
          strobeSafe_cons_oeDout,
          strobeSafe_cons_flags_set _ _ (show Nat.testBit (R_W + _OE) 2 = true
            from by decide)]
        rfl
      | true =>
        simp only [if_true, ite_true, List.cons_append, List.append_assoc,
          List.nil_append]
        rw [strobeSafe_cons_out, strobeSafe_cons_out, strobeSafe_cons_out,
          strobeSafe_cons_out, strobeSafe_cons_out,
          strobeSafe_cons_flags_set _ _ (show Nat.testBit (R_W + _OE) 2 = true
            from by decide),
          strobeSafe_cons_oeDout,
          strobeSafe_protect, strobeSafe_cons_setMode,
          strobeSafe_write_loop, strobeSafe_cons_setMode,
          strobeSafe_protect,
          strobeSafe_cons_oeDout,
          strobeSafe_cons_flags_set _ _ (show Nat.testBit (R_W + _OE) 2 = true
            from by decide)]
        rfl
  exact ⟨hread.1, hread.2.1, hread.2.2, hwrite.1, hwrite.2.1, hwrite.2.2⟩

theorem bus_read_safe_defaults_witness :
    (flagsSends (cmd_read (String.toList "read 0x0005 0x0006") true
      (fun _ => 0))).getLast? = some (R_W + _OE)
    ∧ strobeSafe (cmd_write (String.toList "write 0x0005 0x0006") true true
      [1, 2]) = true := by
  have h := bus_read_safe_defaults (String.toList "read 0x0005 0x0006")
    true true true (fun _ => 0) [1, 2] (by decide) (by decide) (by decide)
  have h2 := bus_read_safe_defaults (String.toList "write 0x0005 0x0006")
    true true true (fun _ => 0) [1, 2] (by decide) (by decide) (by decide)
  refine ⟨?_, h2.2.2.2.2.2⟩
  rcases h.1 with hh | hh
  · exact absurd hh (by decide)
  · exact hh
/-- Claim C8 counterexample: `page_write off` is a non-empty command line
whose first token is not in the spec's command set {echo, read, write,
help}, yet the firmware dispatches it to `cmd_page_write` and never replies
`Invalid command`. -/
theorem unknown_token_reply_cex :
    (String.toList "page_write off") ≠ []
    ∧ (String.toList "page_write off").take 4 ≠ String.toList "echo"
    ∧ (String.toList "page_write off").take 4 ≠ String.toList "read"
    ∧ (String.toList "page_write off").take 5 ≠ String.toList "write"
    ∧ (String.toList "page_write off").take 4 ≠ String.toList "help"
    ∧ Ev.out Line.invalidCommand ∉
        (dispatch (String.toList "page_write off") ⟨true, true, true⟩
          (fun _ => 0) []).2 := by
  refine ⟨by decide, by decide, by decide, by decide, by decide, by decide⟩

/-- Claim C8 (amended): every non-empty command line that does not begin
with one of the six prefixes the dispatcher recognizes — `echo`, `read`,
`write`, `page_write`, `eeprom_lock`, `help` — receives exactly the
`Invalid command` reply, and the mode globals are unchanged. -/
theorem unknown_token_reply (cmd : List Char) (g : Globals)
    (mem : Nat → Nat) (input : List Nat)
    (h0 : cmd ≠ [])
    (h1 : cmd.take 4 ≠ String.toList "echo")
    (h2 : cmd.take 4 ≠ String.toList "read")
    (h3 : cmd.take 5 ≠ String.toList "write")
    (h4 : cmd.take 10 ≠ String.toList "page_write")
    (h5 : cmd.take 11 ≠ String.toList "eeprom_lock")
    (h6 : cmd.take 4 ≠ String.toList "help") :
    dispatch cmd g mem input = (g, [.out .invalidCommand]) := by
  have hl : ¬(cmd.length = 0) := by
    intro h
    exact h0 (List.length_eq_zero.mp h)
  simp only [dispatch, if_neg hl, if_neg h1, if_neg h2, if_neg h3,
    if_neg h4, if_neg h5, if_neg h6]

theorem unknown_token_reply_witness :
    dispatch (String.toList "foo") ⟨true, false, true⟩ (fun _ => 0) []
      = (⟨true, false, true⟩, [.out .invalidCommand]) :=
  unknown_token_reply (String.toList "foo") ⟨true, false, true⟩
    (fun _ => 0) [] (by decide) (by decide) (by decide) (by decide)
    (by decide) (by decide) (by decide)

theorem USCI0RX_ISR_write (c : List Char) (idx target rx : Nat)
    (echo_mode : Bool) :
    USCI0RX_ISR ⟨SERMODE_WRITE, c, idx, target⟩ rx echo_mode
      = (⟨SERMODE_WRITE, c, idx + 1, target⟩,
         [IsrEff.store idx rx]
           ++ (if idx + 1 ≥ target then [IsrEff.wake] else [])) := rfl

theorem storeIdxs_append (u v : List IsrEff) :
    storeIdxs (u ++ v) = storeIdxs u ++ storeIdxs v := by
  simp [storeIdxs]

theorem isr_run_write_stores (echo_mode : Bool) :
    ∀ (bytes : List Nat) (c : List Char) (idx target : Nat),
    storeIdxs (isr_run ⟨SERMODE_WRITE, c, idx, target⟩ echo_mode bytes).2
      = (List.range bytes.length).map (fun k => idx + k) := by
  intro bytes
  induction bytes with
  | nil => intro c idx target; rfl
  | cons b bytes ih =>
    intro c idx target
    simp only [isr_run, USCI0RX_ISR_write]
    have h1 : storeIdxs ([IsrEff.store idx b]
        ++ (if idx + 1 ≥ target then [IsrEff.wake] else [])) = [idx] := by
      by_cases hw : idx + 1 ≥ target <;> simp [hw, storeIdxs]
    rw [storeIdxs_append, h1, ih]
    simp only [List.length_cons, List.range_succ_eq_map, List.map_cons,
      List.map_map, Nat.add_zero, List.singleton_append]
    congr 1
    apply List.map_congr_left
    intro k _
    simp only [Function.comp_apply]
    omega

theorem isr_run_write_wake (echo_mode : Bool) :
    ∀ (bytes : List Nat) (c : List Char) (idx target : Nat),
    (IsrEff.wake ∈ (isr_run ⟨SERMODE_WRITE, c, idx, target⟩ echo_mode
        bytes).2
      ↔ ∃ k, k < bytes.length ∧ idx + k + 1 ≥ target) := by
  intro bytes
  induction bytes with
  | nil =>
    intro c idx target
    simp [isr_run]
  | cons b bytes ih =>
    intro c idx target
    simp only [isr_run, USCI0RX_ISR_write]
    by_cases hw : idx + 1 ≥ target
    · simp only [if_pos hw]
      constructor
      · intro _
        exact ⟨0, by simp, by omega⟩
      · intro _
        simp
    · simp only [if_neg hw, List.append_nil]
      constructor
      · intro h
        simp only [List.mem_append, List.mem_singleton] at h
        rcases h with h | h
        · exact absurd h (by simp)
        · obtain ⟨k, hk, hge⟩ := (ih c (idx + 1) target).mp h
          refine ⟨k + 1, ?_, by omega⟩
          simp only [List.length_cons]
          omega
      · rintro ⟨k, hk, hge⟩
        simp only [List.mem_append, List.mem_singleton]
        right
        apply (ih c (idx + 1) target).mpr
        cases k with
        | zero => omega
        | succ k =>
          refine ⟨k, ?_, by omega⟩
          simp only [List.length_cons] at hk
          omega

/-- Claim C9: for any chunk of a valid request the announced target size is
between 1 and 64 (the capacity of `write_buf`); a handler run over exactly
that many received bytes in `SERMODE_WRITE` stores them at indices
`0..target-1` — all within the 64-byte buffer — and wakes the main loop
exactly when `write_buf_idx` reaches the target (never earlier); and the
handler stores at `write_buf[write_buf_idx]` unconditionally — no code
path compares the store index with the buffer capacity, so in-bounds
access holds exactly under the announced-count precondition. -/
theorem write_buf_in_bounds (page_write : Bool) (cur endA : Nat)
    (bytes : List Nat) (hc : cur ≤ endA) (he : endA ≤ 0x7fff)
    (hb : bytes.length = chunkSize page_write cur endA) :
    (1 ≤ chunkSize page_write cur endA
      ∧ chunkSize page_write cur endA ≤ 64)
    ∧ (∀ i ∈ storeIdxs (isr_run
          ⟨SERMODE_WRITE, [], 0, chunkSize page_write cur endA⟩ true
          bytes).2, i < 64)
    ∧ IsrEff.wake ∈ (isr_run
        ⟨SERMODE_WRITE, [], 0, chunkSize page_write cur endA⟩ true bytes).2
    ∧ (∀ n, n < chunkSize page_write cur endA →
        IsrEff.wake ∉ (isr_run
          ⟨SERMODE_WRITE, [], 0, chunkSize page_write cur endA⟩ true
          (bytes.take n)).2)
    ∧ (∀ (st : SerialSt) (rx : Nat) (echo_mode : Bool),
        st.serial_mode = SERMODE_WRITE →
        IsrEff.store st.write_buf_idx rx
          ∈ (USCI0RX_ISR st rx echo_mode).2) := by
  obtain ⟨hb1, hb64⟩ := chunkSize_bounds page_write cur endA hc he
  refine ⟨⟨hb1, hb64⟩, ?_, ?_, ?_, ?_⟩
  · intro i hi
    rw [isr_run_write_stores] at hi
    simp only [List.mem_map, List.mem_range] at hi
    obtain ⟨k, hk, rfl⟩ := hi
    omega
  · rw [isr_run_write_wake]
    exact ⟨chunkSize page_write cur endA - 1, by omega, by omega⟩
  · intro n hn hmem
    rw [isr_run_write_wake] at hmem
    obtain ⟨k, hk, hge⟩ := hmem
    rw [List.length_take] at hk
    omega
  · intro st rx echo_mode hmode
    simp only [USCI0RX_ISR, if_pos hmode]
    simp

theorem write_buf_in_bounds_witness :
    (1 ≤ chunkSize true 0x203e 0x2041 ∧ chunkSize true 0x203e 0x2041 ≤ 64)
    ∧ ∀ i ∈ storeIdxs (isr_run ⟨SERMODE_WRITE, [], 0,
        chunkSize true 0x203e 0x2041⟩ true [9, 9]).2, i < 64 := by
  have h := write_buf_in_bounds true 0x203e 0x2041 [9, 9] (by norm_num)
    (by norm_num) (by decide)
  exact ⟨h.1, h.2.1⟩
theorem modeAfter_append (t : List Ev) :
    ∀ (m : Nat) (u : List Ev),
    modeAfter m (t ++ u) = modeAfter (modeAfter m t) u := by
  induction t with
  | nil => intro m u; rfl
  | cons a t ih =>
    intro m u
    cases a <;> simp only [List.cons_append, modeAfter] <;> exact ih _ _

theorem pausesOnlyInWrite_append (t : List Ev) :
    ∀ (m : Nat) (u : List Ev),
    pausesOnlyInWrite m (t ++ u)
      = (pausesOnlyInWrite m t && pausesOnlyInWrite (modeAfter m t) u) := by
  induction t with
  | nil => intro m u; rfl
  | cons a t ih =>
    intro m u
    cases a with
    | pause =>
      show ((m == SERMODE_WRITE) && pausesOnlyInWrite m (t ++ u))
        = (((m == SERMODE_WRITE) && pausesOnlyInWrite m t)
            && pausesOnlyInWrite (modeAfter m t) u)
      rw [ih, Bool.and_assoc]
    | setMode k =>
      show pausesOnlyInWrite k (t ++ u)
        = (pausesOnlyInWrite k t && pausesOnlyInWrite (modeAfter k t) u)
      exact ih _ _
    | out l => exact ih _ _
    | flags f => exact ih _ _
    | addr a => exact ih _ _
    | data d => exact ih _ _
    | oeDout b => exact ih _ _
    | dinClk b => exact ih _ _
    | dinShld b => exact ih _ _
    | delay => exact ih _ _

theorem setModes_append (t u : List Ev) :
    setModes (t ++ u) = setModes t ++ setModes u := by
  simp [setModes]

theorem modeAfter_no_set (t : List Ev) (h : setModes t = []) :
    ∀ m, modeAfter m t = m := by
  induction t with
  | nil => intro m; rfl
  | cons a t ih =>
    intro m
    cases a with
    | setMode k => exact absurd h (by simp [setModes])
    | out l => exact ih (by simpa [setModes] using h) m
    | flags f => exact ih (by simpa [setModes] using h) m
    | addr a => exact ih (by simpa [setModes] using h) m
    | data d => exact ih (by simpa [setModes] using h) m
    | oeDout b => exact ih (by simpa [setModes] using h) m
    | dinClk b => exact ih (by simpa [setModes] using h) m
    | dinShld b => exact ih (by simpa [setModes] using h) m
    | pause => exact ih (by simpa [setModes] using h) m
    | delay => exact ih (by simpa [setModes] using h) m

theorem pausesOnly_of_no_pause (t : List Ev) (h : Ev.pause ∉ t) :
    ∀ m, pausesOnlyInWrite m t = true := by
  induction t with
  | nil => intro m; rfl
  | cons a t ih =>
    intro m
    have hn : Ev.pause ∉ t := fun hx => h (List.mem_cons_of_mem _ hx)
    cases a <;> first
      | (exfalso; exact h (List.mem_cons_self _ _))
      | (exact ih hn _)

theorem pause_not_mem_read_range (echo_mode : Bool) (mem : Nat → Nat) :
    ∀ (n a : Nat), Ev.pause ∉ read_range_evs echo_mode mem a n := by
  intro n
  induction n with
  | zero => intro a h; simp [read_range_evs] at h
  | succ n ih =>
    intro a h
    rw [read_range_evs] at h
    rcases List.mem_append.mp h with h | h
    · cases echo_mode <;>
        simp [read_addr_evs, din_load_evs, din_pulses] at h
    · exact ih (a + 1) h

theorem setModes_read_range (echo_mode : Bool) (mem : Nat → Nat) :
    ∀ (n a : Nat), setModes (read_range_evs echo_mode mem a n) = [] := by
  intro n
  induction n with
  | zero => intro a; rfl
  | succ n ih =>
    intro a
    rw [read_range_evs, setModes_append, ih]
    cases echo_mode <;> rfl

theorem setModes_write_bytes (chunk : List Nat) :
    ∀ (cur f : Nat), setModes (write_bytes_evs cur chunk f).1 = [] := by
  induction chunk with
  | nil => intro cur f; rfl
  | cons b chunk ih =>
    intro cur f
    simp only [write_bytes_evs, setModes_append, ih]
    rfl

theorem pause_not_mem_write_bytes (chunk : List Nat) :
    ∀ (cur f : Nat), Ev.pause ∉ (write_bytes_evs cur chunk f).1 := by
  induction chunk with
  | nil => intro cur f h; simp [write_bytes_evs] at h
  | cons b chunk ih =>
    intro cur f h
    simp only [write_bytes_evs, List.mem_append, List.mem_cons] at h
    rcases h with h | h
    · simp at h
    · exact ih _ _ h

theorem setModes_write_loop (page_write : Bool) (endA : Nat) :
    ∀ (fuel cur f : Nat) (input : List Nat),
    setModes (write_loop_evs fuel page_write cur endA f input).1 = [] := by
  intro fuel
  induction fuel with
  | zero => intro cur f input; rfl
  | succ fuel ih =>
    intro cur f input
    by_cases hc : cur ≤ endA
    · simp only [write_loop_evs, if_pos hc, setModes_append,
        setModes_write_bytes, ih]
      rfl
    · rw [write_loop_done _ _ _ _ _ _ (by omega)]
      rfl

theorem pausesOnly_write_loop (page_write : Bool) (endA : Nat) :
    ∀ (fuel cur f : Nat) (input : List Nat),
    pausesOnlyInWrite SERMODE_WRITE
      (write_loop_evs fuel page_write cur endA f input).1 = true := by
  intro fuel
  induction fuel with
  | zero => intro cur f input; rfl
  | succ fuel ih =>
    intro cur f input
    by_cases hc : cur ≤ endA
    · simp only [write_loop_evs, if_pos hc, List.append_assoc]
      rw [pausesOnlyInWrite_append]
      have h3 : pausesOnlyInWrite SERMODE_WRITE
          [Ev.out (Line.sendBytes (chunkSize page_write cur endA)
            (endA - cur + 1)), Ev.pause,
           Ev.out (Line.writingAt (chunkSize page_write cur endA) cur)]
          = true := rfl
      have h4 : modeAfter SERMODE_WRITE
          [Ev.out (Line.sendBytes (chunkSize page_write cur endA)
            (endA - cur + 1)), Ev.pause,
           Ev.out (Line.writingAt (chunkSize page_write cur endA) cur)]
          = SERMODE_WRITE := rfl
      rw [h3, h4, Bool.true_and]
      rw [pausesOnlyInWrite_append]
      rw [pausesOnly_of_no_pause _ (pause_not_mem_write_bytes _ _ _)
        SERMODE_WRITE]
      rw [modeAfter_no_set _ (setModes_write_bytes _ _ _) SERMODE_WRITE]
      rw [Bool.true_and]
      rw [pausesOnlyInWrite_append]
      rw [show pausesOnlyInWrite SERMODE_WRITE [Ev.delay] = true from rfl]
      rw [show modeAfter SERMODE_WRITE [Ev.delay] = SERMODE_WRITE from rfl]
      rw [Bool.true_and]
      exact ih _ _ _
    · rw [write_loop_done _ _ _ _ _ _ (by omega)]
      rfl

theorem ctl_cmd_echo (cmd : List Char) (g : Globals) :
    setModes (cmd_echo cmd g).2 = [] ∧ Ev.pause ∉ (cmd_echo cmd g).2 := by
  unfold cmd_echo
  split
  · exact ⟨rfl, by simp⟩
  split
  · exact ⟨rfl, by simp⟩
  · exact ⟨rfl, by simp⟩

theorem ctl_cmd_page_write (cmd : List Char) (g : Globals) :
    setModes (cmd_page_write cmd g).2 = [] ∧ Ev.pause ∉ (cmd_page_write cmd g).2 := by
  unfold cmd_page_write
  split
  · exact ⟨rfl, by simp⟩
  split
  · exact ⟨rfl, by simp⟩
  · exact ⟨rfl, by simp⟩

theorem ctl_cmd_eeprom_lock (cmd : List Char) (g : Globals) :
    setModes (cmd_eeprom_lock cmd g).2 = [] ∧ Ev.pause ∉ (cmd_eeprom_lock cmd g).2 := by
  unfold cmd_eeprom_lock
  split
  · exact ⟨rfl, by simp⟩
  split
  · exact ⟨rfl, by simp⟩
  · exact ⟨rfl, by simp⟩

theorem ctl_cmd_read (cmd : List Char) (echo_mode : Bool) (mem : Nat → Nat) :
    setModes (cmd_read cmd echo_mode mem) = []
    ∧ Ev.pause ∉ cmd_read cmd echo_mode mem := by
  by_cases h1 : cmd.length ≠ 18
  · simp only [cmd_read, if_pos h1]
    exact ⟨rfl, by simp⟩
  by_cases h2 : strtoul_hex (cmd.drop 7) % 65536 = 0
      ∧ (cmd.drop 7).take 4 ≠ str0000
  · simp only [cmd_read, if_neg h1, if_pos h2]
    exact ⟨rfl, by simp⟩
  by_cases h3 : strtoul_hex (cmd.drop 14) % 65536 = 0
      ∧ (cmd.drop 14).take 4 ≠ str0000
  · simp only [cmd_read, if_neg h1, if_neg h2, if_pos h3]
    exact ⟨rfl, by simp⟩
  by_cases h4 : strtoul_hex (cmd.drop 7) % 65536
      > strtoul_hex (cmd.drop 14) % 65536
  · simp only [cmd_read, if_neg h1, if_neg h2, if_neg h3, if_pos h4]
    exact ⟨rfl, by simp⟩
  simp only [cmd_read, if_neg h1, if_neg h2, if_neg h3, if_neg h4]
  constructor
  · rw [setModes_append, setModes_append, setModes_read_range]
    rfl
  · intro hmem
    rcases List.mem_append.mp hmem with hmem | hmem
    · rcases List.mem_append.mp hmem with hmem | hmem
      · simp at hmem
      · exact pause_not_mem_read_range _ _ _ _ hmem
    · simp at hmem

theorem pause_not_mem_protect_disable :
    Ev.pause ∉ (protect_loop disable_data_protect (R_W + _OE)).1 := by
  decide

theorem pause_not_mem_protect_enable :
    Ev.pause ∉ (protect_loop enable_data_protect (R_W + _OE)).1 := by
  decide

theorem setModes_protect_disable :
    setModes (protect_loop disable_data_protect (R_W + _OE)).1 = [] := by
  decide

theorem setModes_protect_enable :
    setModes (protect_loop enable_data_protect (R_W + _OE)).1 = [] := by
  decide

theorem modeAfter_foldl (t : List Ev) :
    ∀ m, modeAfter m t = (setModes t).foldl (fun _ k => k) m := by
  induction t with
  | nil => intro m; rfl
  | cons a t ih =>
    intro m
    cases a with
    | setMode k => exact ih k
    | out l => exact ih m
    | flags f => exact ih m
    | addr a => exact ih m
    | data d => exact ih m
    | oeDout b => exact ih m
    | dinClk b => exact ih m
    | dinShld b => exact ih m
    | pause => exact ih m
    | delay => exact ih m

theorem protect_disable_snd :
    (protect_loop disable_data_protect (R_W + _OE)).2 = R_W + _OE := by
  decide

theorem ctl_cmd_write (cmd : List Char) (page_write eeprom_lock : Bool)
    (input : List Nat) :
    modeAfter SERMODE_CMD (cmd_write cmd page_write eeprom_lock input)
      = SERMODE_CMD
    ∧ pausesOnlyInWrite SERMODE_CMD
        (cmd_write cmd page_write eeprom_lock input) = true
    ∧ (setModes (cmd_write cmd page_write eeprom_lock input) = []
      ∨ setModes (cmd_write cmd page_write eeprom_lock input)
          = [SERMODE_WRITE, SERMODE_CMD]) := by
  by_cases h1 : cmd.length ≠ 19
  · simp only [cmd_write, if_pos h1]
    exact ⟨rfl, rfl, Or.inl rfl⟩
  by_cases h2 : strtoul_hex (cmd.drop 8) % 65536 = 0
      ∧ (cmd.drop 8).take 4 ≠ str0000
  · simp only [cmd_write, if_neg h1, if_pos h2]
    exact ⟨rfl, rfl, Or.inl rfl⟩
  by_cases h3 : strtoul_hex (cmd.drop 15) % 65536 = 0
      ∧ (cmd.drop 15).take 4 ≠ str0000
  · simp only [cmd_write, if_neg h1, if_neg h2, if_pos h3]
    exact ⟨rfl, rfl, Or.inl rfl⟩
  by_cases h4 : strtoul_hex (cmd.drop 8) % 65536
      > strtoul_hex (cmd.drop 15) % 65536
  · simp only [cmd_write, if_neg h1, if_neg h2, if_neg h3, if_pos h4]
    exact ⟨rfl, rfl, Or.inl rfl⟩
  simp only [cmd_write, if_neg h1, if_neg h2, if_neg h3, if_neg h4]
  cases eeprom_lock with
  | false =>
    simp only [Bool.false_eq_true, if_false, ite_false, List.nil_append,
      List.append_nil]
    have hset : ∀ (A : List Ev), setModes A = [] → Ev.pause ∉ A →
        ∀ (lp : List Ev), setModes lp = []
        → pausesOnlyInWrite SERMODE_WRITE lp = true
        → (modeAfter SERMODE_CMD
            (A ++ [Ev.setMode SERMODE_WRITE] ++ lp
              ++ [Ev.setMode SERMODE_CMD]
              ++ [Ev.oeDout true, Ev.flags (R_W + _OE)]) = SERMODE_CMD
          ∧ pausesOnlyInWrite SERMODE_CMD
            (A ++ [Ev.setMode SERMODE_WRITE] ++ lp
              ++ [Ev.setMode SERMODE_CMD]
              ++ [Ev.oeDout true, Ev.flags (R_W + _OE)]) = true
          ∧ (setModes (A ++ [Ev.setMode SERMODE_WRITE] ++ lp
              ++ [Ev.setMode SERMODE_CMD]
              ++ [Ev.oeDout true, Ev.flags (R_W + _OE)]) = []
            ∨ setModes (A ++ [Ev.setMode SERMODE_WRITE] ++ lp
              ++ [Ev.setMode SERMODE_CMD]
              ++ [Ev.oeDout true, Ev.flags (R_W + _OE)])
              = [SERMODE_WRITE, SERMODE_CMD])) := by
      intro A hA hpA lp hlp hplp
      have hsm : setModes (A ++ [Ev.setMode SERMODE_WRITE] ++ lp
          ++ [Ev.setMode SERMODE_CMD]
          ++ [Ev.oeDout true, Ev.flags (R_W + _OE)])
          = [SERMODE_WRITE, SERMODE_CMD] := by
        simp only [setModes_append, hA, hlp]
        rfl
      refine ⟨?_, ?_, Or.inr hsm⟩
      · rw [modeAfter_foldl, hsm]
        rfl
      · simp only [List.append_assoc]
        rw [pausesOnlyInWrite_append,
          pausesOnly_of_no_pause A hpA SERMODE_CMD,
          modeAfter_no_set A hA SERMODE_CMD, Bool.true_and,
          pausesOnlyInWrite_append,
          show pausesOnlyInWrite SERMODE_CMD [Ev.setMode SERMODE_WRITE]
            = true from rfl,
          show modeAfter SERMODE_CMD [Ev.setMode SERMODE_WRITE]
            = SERMODE_WRITE from rfl, Bool.true_and,
          pausesOnlyInWrite_append, hplp,
          modeAfter_no_set lp hlp SERMODE_WRITE, Bool.true_and]
        rfl
    refine hset _ ?_ ?_ _ ?_ ?_
    · rfl
    · simp
    · exact setModes_write_loop _ _ _ _ _ _
    · exact pausesOnly_write_loop _ _ _ _ _ _
  | true =>
    simp only [if_true, ite_true, protect_disable_snd, write_loop_flags]
    have hset : ∀ (A B C : List Ev), setModes A = [] → Ev.pause ∉ A →
        setModes B = [] → Ev.pause ∉ B → setModes C = [] → Ev.pause ∉ C →
        ∀ (lp : List Ev), setModes lp = []
        → pausesOnlyInWrite SERMODE_WRITE lp = true
        → (modeAfter SERMODE_CMD
            (A ++ B ++ [Ev.setMode SERMODE_WRITE] ++ lp
              ++ [Ev.setMode SERMODE_CMD] ++ C
              ++ [Ev.oeDout true, Ev.flags (R_W + _OE)]) = SERMODE_CMD
          ∧ pausesOnlyInWrite SERMODE_CMD
            (A ++ B ++ [Ev.setMode SERMODE_WRITE] ++ lp
              ++ [Ev.setMode SERMODE_CMD] ++ C
              ++ [Ev.oeDout true, Ev.flags (R_W + _OE)]) = true
          ∧ (setModes (A ++ B ++ [Ev.setMode SERMODE_WRITE] ++ lp
              ++ [Ev.setMode SERMODE_CMD] ++ C
              ++ [Ev.oeDout true, Ev.flags (R_W + _OE)]) = []
            ∨ setModes (A ++ B ++ [Ev.setMode SERMODE_WRITE] ++ lp
              ++ [Ev.setMode SERMODE_CMD] ++ C
              ++ [Ev.oeDout true, Ev.flags (R_W + _OE)])
              = [SERMODE_WRITE, SERMODE_CMD])) := by
      intro A B C hA hpA hB hpB hC hpC lp hlp hplp
      have hsm : setModes (A ++ B ++ [Ev.setMode SERMODE_WRITE] ++ lp
          ++ [Ev.setMode SERMODE_CMD] ++ C
          ++ [Ev.oeDout true, Ev.flags (R_W + _OE)])
          = [SERMODE_WRITE, SERMODE_CMD] := by
        simp only [setModes_append, hA, hB, hC, hlp]
        rfl
      refine ⟨?_, ?_, Or.inr hsm⟩
      · rw [modeAfter_foldl, hsm]
        rfl
      · simp only [List.append_assoc]
        rw [pausesOnlyInWrite_append,
          pausesOnly_of_no_pause A hpA SERMODE_CMD,
          modeAfter_no_set A hA SERMODE_CMD, Bool.true_and,
          pausesOnlyInWrite_append,
          pausesOnly_of_no_pause B hpB SERMODE_CMD,
          modeAfter_no_set B hB SERMODE_CMD, Bool.true_and,
          pausesOnlyInWrite_append,
          show pausesOnlyInWrite SERMODE_CMD [Ev.setMode SERMODE_WRITE]
            = true from rfl,
          show modeAfter SERMODE_CMD [Ev.setMode SERMODE_WRITE]
            = SERMODE_WRITE from rfl, Bool.true_and,
          pausesOnlyInWrite_append, hplp,
          modeAfter_no_set lp hlp SERMODE_WRITE, Bool.true_and,
          pausesOnlyInWrite_append,
          show pausesOnlyInWrite SERMODE_WRITE [Ev.setMode SERMODE_CMD]
            = true from rfl,
          show modeAfter SERMODE_WRITE [Ev.setMode SERMODE_CMD]
            = SERMODE_CMD from rfl, Bool.true_and,
          pausesOnlyInWrite_append,
          pausesOnly_of_no_pause C hpC SERMODE_CMD,
          modeAfter_no_set C hC SERMODE_CMD, Bool.true_and]
        rfl
    refine hset _ _ _ ?_ ?_ ?_ ?_ ?_ ?_ _ ?_ ?_
    · rfl
    · simp
    · exact setModes_protect_disable
    · exact pause_not_mem_protect_disable
    · exact setModes_protect_enable
    · exact pause_not_mem_protect_enable
    · exact setModes_write_loop _ _ _ _ _ _
    · exact pausesOnly_write_loop _ _ _ _ _ _

/-- Claim C10: dispatching any command line from `SERMODE_CMD` returns with
`serial_mode = SERMODE_CMD`: the only mode switches a dispatch can perform
are `cmd_write`'s `SERMODE_WRITE` then back to `SERMODE_CMD`, every
`pause_for_char` sleep inside a dispatch happens in `SERMODE_WRITE` (the
data-reception loop), and while `serial_mode = SERMODE_CMD` the receive
handler never stores into `write_buf` — a non-CR byte is appended to the
command buffer instead. -/
theorem serial_mode_restored (cmd : List Char) (g : Globals)
    (mem : Nat → Nat) (input : List Nat) :
    modeAfter SERMODE_CMD (dispatch cmd g mem input).2 = SERMODE_CMD
    ∧ pausesOnlyInWrite SERMODE_CMD (dispatch cmd g mem input).2 = true
    ∧ (setModes (dispatch cmd g mem input).2 = []
      ∨ setModes (dispatch cmd g mem input).2
          = [SERMODE_WRITE, SERMODE_CMD])
    ∧ (∀ (st : SerialSt) (rx : Nat) (echo_mode : Bool),
        st.serial_mode = SERMODE_CMD →
        storeIdxs (USCI0RX_ISR st rx echo_mode).2 = []
        ∧ (rx ≠ 0x0d →
            (USCI0RX_ISR st rx echo_mode).1.cmd
              = st.cmd ++ [Char.ofNat rx])) := by
  have hisr : ∀ (st : SerialSt) (rx : Nat) (echo_mode : Bool),
      st.serial_mode = SERMODE_CMD →
      storeIdxs (USCI0RX_ISR st rx echo_mode).2 = []
      ∧ (rx ≠ 0x0d →
          (USCI0RX_ISR st rx echo_mode).1.cmd
            = st.cmd ++ [Char.ofNat rx]) := by
    intro st rx echo_mode hmode
    simp only [USCI0RX_ISR, hmode, if_true]
    by_cases hr : rx = 0x0d
    · rw [if_pos hr]
      constructor
      · cases echo_mode <;> rfl
      · intro hne
        exact absurd hr hne
    · rw [if_neg hr]
      constructor
      · cases echo_mode <;> rfl
      · intro _
        rfl
  by_cases h0 : cmd.length = 0
  · simp only [dispatch, if_pos h0]
    exact ⟨rfl, rfl, Or.inl rfl, hisr⟩
  by_cases h1 : cmd.take 4 = String.toList "echo"
  · simp only [dispatch, if_neg h0, if_pos h1]
    obtain ⟨hs, hp⟩ := ctl_cmd_echo cmd g
    exact ⟨modeAfter_no_set _ hs _, pausesOnly_of_no_pause _ hp _,
      Or.inl hs, hisr⟩
  by_cases h2 : cmd.take 4 = String.toList "read"
  · simp only [dispatch, if_neg h0, if_neg h1, if_pos h2]
    obtain ⟨hs, hp⟩ := ctl_cmd_read cmd g.echo_mode mem
    exact ⟨modeAfter_no_set _ hs _, pausesOnly_of_no_pause _ hp _,
      Or.inl hs, hisr⟩
  by_cases h3 : cmd.take 5 = String.toList "write"
  · simp only [dispatch, if_neg h0, if_neg h1, if_neg h2, if_pos h3]
    obtain ⟨hm, hp, hs⟩ := ctl_cmd_write cmd g.page_write g.eeprom_lock input
    exact ⟨hm, hp, hs, hisr⟩
  by_cases h4 : cmd.take 10 = String.toList "page_write"
  · simp only [dispatch, if_neg h0, if_neg h1, if_neg h2, if_neg h3,
      if_pos h4]
    obtain ⟨hs, hp⟩ := ctl_cmd_page_write cmd g
    exact ⟨modeAfter_no_set _ hs _, pausesOnly_of_no_pause _ hp _,
      Or.inl hs, hisr⟩
  by_cases h5 : cmd.take 11 = String.toList "eeprom_lock"
  · simp only [dispatch, if_neg h0, if_neg h1, if_neg h2, if_neg h3,
      if_neg h4, if_pos h5]
    obtain ⟨hs, hp⟩ := ctl_cmd_eeprom_lock cmd g
    exact ⟨modeAfter_no_set _ hs _, pausesOnly_of_no_pause _ hp _,
      Or.inl hs, hisr⟩
  by_cases h6 : cmd.take 4 = String.toList "help"
  · simp only [dispatch, if_neg h0, if_neg h1, if_neg h2, if_neg h3,
      if_neg h4, if_neg h5, if_pos h6]
    exact ⟨rfl, rfl, Or.inl rfl, hisr⟩
  · simp only [dispatch, if_neg h0, if_neg h1, if_neg h2, if_neg h3,
      if_neg h4, if_neg h5, if_neg h6]
    exact ⟨rfl, rfl, Or.inl rfl, hisr⟩

theorem serial_mode_restored_witness :
    modeAfter SERMODE_CMD (dispatch (String.toList "write 0x0000 0x0001")
      ⟨true, false, true⟩ (fun _ => 0) [1, 2]).2 = SERMODE_CMD
    ∧ storeIdxs (USCI0RX_ISR ⟨SERMODE_CMD, [], 0, 0⟩ 97 true).2 = [] := by
  have h := serial_mode_restored (String.toList "write 0x0000 0x0001")
    ⟨true, false, true⟩ (fun _ => 0) [1, 2]
  exact ⟨h.1, (h.2.2.2 ⟨SERMODE_CMD, [], 0, 0⟩ 97 true rfl).1⟩

theorem send_addr_lsb (a : Nat) :
    send_addr_evs a = lsb_first_trace Chain.addr a 16 := by
  simp only [send_addr_evs, shiftreg_send, lsb_first_trace, shift_byte_evs]
  norm_num [List.range_succ, shift_byte_evs,
    (show Nat.testBit 65280 8 = true by decide),
    (show Nat.testBit 65280 9 = true by decide),
    (show Nat.testBit 65280 10 = true by decide),
    (show Nat.testBit 65280 11 = true by decide),
    (show Nat.testBit 65280 12 = true by decide),
    (show Nat.testBit 65280 13 = true by decide),
    (show Nat.testBit 65280 14 = true by decide),
    (show Nat.testBit 65280 15 = true by decide),
    (show Nat.testBit 255 0 = true by decide),
    (show Nat.testBit 255 1 = true by decide),
    (show Nat.testBit 255 2 = true by decide),
    (show Nat.testBit 255 3 = true by decide),
    (show Nat.testBit 255 4 = true by decide),
    (show Nat.testBit 255 5 = true by decide),
    (show Nat.testBit 255 6 = true by decide),
    (show Nat.testBit 255 7 = true by decide)]

theorem send_flags_lsb (f : Nat) :
    send_flags_evs f = lsb_first_trace Chain.flags f 3 := by
  simp [send_flags_evs, shiftreg_send, lsb_first_trace, shift_byte_evs,
    List.range_succ]

theorem send_data_lsb (d : Nat) :
    send_data_evs d = lsb_first_trace Chain.data d 8 := by
  simp [send_data_evs, shiftreg_send, lsb_first_trace, shift_byte_evs,
    List.range_succ]

/-- Claim C7: `shiftreg_send` transmits LSB first — 3 bits of one byte for
the flags chain, 8 bits of one byte for the data chain, and 16 bits as two
bytes (low byte first) for the address chain; for each bit it sets the
chain's serial-data line to the bit value and pulses the shift clock high
then low; after the last bit it resets the serial-data line to idle low
and pulses the chain's latch clock exactly once. -/
theorem shiftreg_send_lsb_first (f a d : Nat) :
    send_flags_evs f = lsb_first_trace Chain.flags f 3
    ∧ send_addr_evs a = lsb_first_trace Chain.addr a 16
    ∧ send_data_evs d = lsb_first_trace Chain.data d 8 :=
  ⟨send_flags_lsb f, send_addr_lsb a, send_data_lsb d⟩
